import Mathlib

/-!
Shallow embedding of the security-validation module of hogsync
(`src/validation.ts` plus the error type from `src/errors.ts`).

The module has three parts:
* `validatePath` — a path-traversal guard built on Node's posix path
  algebra (`normalize`, `resolve`, `relative` from `node:path`);
* `validateFileSize` — an asynchronous file-size ceiling check;
* `validateSchema` / `validateProperty` / `validateFlagSchema` — a
  recursive JSON-schema walker for the fixed `FLAG_SCHEMA`.

The Node path functions are modelled for posix semantics (separator `/`;
a backslash is an ordinary filename character), at the level of `/`-split
segment lists, which for the string inputs produced here agrees with the
character-level algorithms of `node:path`.  JavaScript strings are
modelled by `String` (lengths count Lean characters where JavaScript
counts UTF-16 units; the two agree on all strings appearing in the
claims).  The ambient working directory `process.cwd()` is passed
explicitly as a `cwd` argument; Node guarantees it is an absolute path.
-/

namespace Hogsync

/-! ## JavaScript string helpers -/

/-- Splitting a character list at every occurrence of `c`, keeping empty
pieces, exactly like JavaScript `String.prototype.split`. -/
def splitOnChar (c : Char) : List Char → List (List Char)
  | [] => [[]]
  | a :: rest =>
    let r := splitOnChar c rest
    if a = c then [] :: r
    else
      match r with
      | h :: t => (a :: h) :: t
      | [] => [[a]]

/-- Joining path segments with `/`, like `Array.prototype.join('/')`. -/
def joinSegs : List String → String
  | [] => ""
  | [x] => x
  | x :: xs => x ++ "/" ++ joinSegs xs

/-- JavaScript `s.startsWith(pre)`. -/
def strStartsWith (s pre : String) : Bool :=
  pre.toList.isPrefixOf s.toList

/-- JavaScript `s.includes(c)` for a single character `c`. -/
def strContainsChar (s : String) (c : Char) : Bool :=
  s.toList.contains c

/-- The NUL character rejected by the guard (`'\0'` in the source). -/
def nulChar : Char := Char.ofNat 0

/-- JavaScript `s.includes(sub)`: `sub` occurs contiguously in `s`. -/
def hasSubstring (s sub : String) : Bool :=
  (List.range (s.toList.length + 1)).any fun i => sub.toList.isPrefixOf (s.toList.drop i)

/-! ## Node posix path model -/

/-- One step of Node's `normalizeString`: empty and `.` segments are
dropped; `..` pops the previous segment unless there is none or it is
itself `..`, in which case it is kept only when `allowAboveRoot`; any
other segment is pushed.  The stack is kept in reverse order. -/
def normStep (allowAboveRoot : Bool) (stack : List String) (seg : String) : List String :=
  if seg = "" ∨ seg = "." then stack
  else if seg = ".." then
    match stack with
    | [] => if allowAboveRoot then [".."] else []
    | top :: rest =>
      if top = ".." then (if allowAboveRoot then ".." :: stack else stack)
      else rest
  else seg :: stack

/-- Node's `normalizeString` on a list of raw `/`-split segments. -/
def normSegs (allowAboveRoot : Bool) (segs : List String) : List String :=
  (segs.foldl (normStep allowAboveRoot) []).reverse

/-- The raw `/`-split pieces of a string. -/
def rawPieces (s : String) : List String :=
  (splitOnChar '/' s.toList).map fun l => String.mk l

/-- Dropping the empty and `.` pieces of a raw segment list, which is
what `normalizeString` does when no `..` is involved. -/
def cleanSegs (l : List String) : List String :=
  l.filter fun t => decide (t ≠ "" ∧ t ≠ ".")

/-- A well-formed path segment: non-empty, not `.`, and free of the
separator.  A `..` segment is allowed. -/
def segOk (t : String) : Prop := t ≠ "" ∧ t ≠ "." ∧ '/' ∉ t.toList

instance (t : String) : Decidable (segOk t) := by
  unfold segOk
  infer_instance

/-- A fully resolved path segment: well formed and not `..` (an
absolute resolution leaves no `..` behind). -/
def segRes (t : String) : Prop := segOk t ∧ t ≠ ".."

/-- The `/`-separated segments of a path string (raw pieces with the
empty pieces dropped). -/
def pathSegs (s : String) : List String :=
  (rawPieces s).filter fun t => t ≠ ""

/-- The segments of `normalize s` (see `normalize`): `..` may survive
only in a relative path. -/
def normalizeSegs (s : String) : List String :=
  normSegs (!strStartsWith s "/") (rawPieces s)

/-- Node `path.posix.normalize`. -/
def normalize (p : String) : String :=
  if p = "" then "."
  else
    let abs := strStartsWith p "/"
    let trailing := p.toList.getLast? = some '/'
    let body := joinSegs (normSegs (!abs) (rawPieces p))
    if body = "" then
      (if abs then "/" else if trailing then "./" else ".")
    else
      let body := if trailing then body ++ "/" else body
      if abs then "/" ++ body else body

/-- The argument-joining loop of Node `path.posix.resolve`, run over the
argument list in reverse: each non-empty argument is prepended with a
trailing `/`, stopping at the first absolute one; if none is absolute the
working directory is prepended.  Returns the joined string and whether
the result is absolute. -/
def resolveGo (cwd : String) (acc : String) : List String → String × Bool
  | [] => (cwd ++ "/" ++ acc, strStartsWith cwd "/")
  | p :: rest =>
    if p = "" then resolveGo cwd acc rest
    else if strStartsWith p "/" then (p ++ "/" ++ acc, true)
    else resolveGo cwd (p ++ "/" ++ acc) rest

/-- The normalized segments of `resolve(...args)`. -/
def resolveSegs (cwd : String) (args : List String) : List String :=
  normSegs (!(resolveGo cwd "" args.reverse).2) (rawPieces (resolveGo cwd "" args.reverse).1)

/-- Node `path.posix.resolve(...args)` relative to the working directory
`cwd` (`process.cwd()`). -/
def resolvePath (cwd : String) (args : List String) : String :=
  let joined := resolveGo cwd "" args.reverse
  let body := joinSegs (normSegs (!joined.2) (rawPieces joined.1))
  if joined.2 then "/" ++ body
  else if body = "" then "." else body

/-- Segment-level core of Node `path.posix.relative`: strip the common
prefix, then one `..` per remaining source segment followed by the
remaining target segments. -/
def relSegsAux : List String → List String → List String
  | f :: fs, t :: ts =>
    if f = t then relSegsAux fs ts
    else List.replicate (fs.length + 1) ".." ++ (t :: ts)
  | [], ts => ts
  | fs, [] => List.replicate fs.length ".."

/-- Node `path.posix.relative(from, to)`: both ends are resolved and, if
they differ, the relative path is assembled from their segments. -/
def relative (cwd fromP toP : String) : String :=
  if fromP = toP then ""
  else
    let f := resolvePath cwd [fromP]
    let t := resolvePath cwd [toP]
    if f = t then "" else joinSegs (relSegsAux (pathSegs f) (pathSegs t))

/-! ## The error type (`src/errors.ts`) -/

/-- A context value attached to an error (`Record<string, unknown>` in
the source holds strings and numbers here). -/
inductive CtxVal where
  | str (s : String)
  | num (n : Nat)
deriving DecidableEq, Repr

/-- `ValidationError` from `src/errors.ts`: a message, the list of
individual validation failures, and the structured context.  The
constructor also records a code `VALIDATION_ERROR` and a timestamp,
which are the same for every `ValidationError` and are omitted. -/
structure ValidationError where
  message : String
  validationErrors : List String
  context : List (String × CtxVal)
deriving DecidableEq, Repr

/-- Projecting the thrown error out of a result, `none` on success. -/
def errOfExcept {α : Type} : Except ValidationError α → Option ValidationError
  | .error e => some e
  | .ok _ => none

instance {ε α : Type} [DecidableEq ε] [DecidableEq α] : DecidableEq (Except ε α) := fun x y =>
  match x, y with
  | .ok a, .ok b => decidable_of_iff (a = b) (by simp)
  | .error e, .error f => decidable_of_iff (e = f) (by simp)
  | .ok _, .error _ => isFalse (by simp)
  | .error _, .ok _ => isFalse (by simp)

/-! ## `validatePath` (`src/validation.ts`, lines 142–180) -/

/-- `validatePath(filePath, basePath)`: rejects the empty string, then
normalizes, resolves against the base, and rejects the result when the
relative path from the resolved base starts with `..` or does not
re-resolve to the resolved path, and finally rejects normalized paths
containing a NUL byte.  `cwd` models `process.cwd()`. -/
def validatePath (cwd filePath basePath : String) : Except ValidationError String :=
  if filePath = "" then
    .error ⟨"Invalid file path: path must be a non-empty string", [],
      [("filePath", .str filePath), ("basePath", .str basePath)]⟩
  else
    let normalizedPath := normalize filePath
    let resolvedPath := resolvePath cwd [basePath, normalizedPath]
    let resolvedBase := resolvePath cwd [basePath]
    let relativePath := relative cwd resolvedBase resolvedPath
    if strStartsWith relativePath ".." = true ∨
        resolvePath cwd [resolvedBase, relativePath] ≠ resolvedPath then
      .error ⟨"Path traversal detected: file path must be within the base directory",
        ["Path \"" ++ filePath ++ "\" resolves outside base directory \"" ++ basePath ++ "\""],
        [("filePath", .str filePath), ("basePath", .str basePath),
         ("resolvedPath", .str resolvedPath), ("relativePath", .str relativePath)]⟩
    else if strContainsChar normalizedPath nulChar = true then
      .error ⟨"Invalid file path: null bytes not allowed", [],
        [("filePath", .str filePath), ("basePath", .str basePath)]⟩
    else
      .ok resolvedPath

/-! ## JSON values and the flag schema (`src/validation.ts`, lines 12–126) -/

/-- A JSON value, as produced by `JSON.parse`.  Numbers are modelled as
rationals (JavaScript numbers are binary floating point, a subset of the
rationals; the schema only compares against the integers 0 and 100).
Object fields are kept in insertion order, as `Object.entries` exposes
them. -/
inductive Json where
  | null
  | bool (b : Bool)
  | num (n : Rat)
  | str (s : String)
  | arr (elems : List Json)
  | obj (fields : List (String × Json))

/-- JavaScript strict equality `===` restricted to the comparisons the
validator performs (`schema.enum.includes(value)`).  Two primitives are
equal when they have the same type and value; an object or array is
compared by reference and is therefore never equal to a schema literal. -/
def jsStrictEq : Json → Json → Bool
  | .null, .null => true
  | .bool a, .bool b => a = b
  | .num a, .num b => a = b
  | .str a, .str b => a = b
  | _, _ => false

/-- Rendering of a schema enum value by `Array.prototype.join` (which
applies `String()` to each element; the flag schema only has string
enum values). -/
def jsDisplay : Json → String
  | .null => "null"
  | .bool b => if b then "true" else "false"
  | .num n => if n.den = 1 then toString n.num else toString n
  | .str s => s
  | .arr _ => ""
  | .obj _ => "[object Object]"

/-- JavaScript number rendering for the integer schema bounds
(`${schema.minimum}` and so on; only 0 and 100 occur). -/
def jsNumToString (q : Rat) : String :=
  if q.den = 1 then toString q.num else toString q

/-- JavaScript `Array.prototype.join(', ')`. -/
def joinComma : List String → String
  | [] => ""
  | [x] => x
  | x :: xs => x ++ ", " ++ joinComma xs

/-- Pairing list elements with their indices starting at `i`. -/
def enumFrom {α : Type} (i : Nat) : List α → List (Nat × α)
  | [] => []
  | x :: xs => (i, x) :: enumFrom (i + 1) xs

/-- A canonical JavaScript array index: a string of digits with no
leading zero (except `"0"` itself), as used by property access on
arrays. -/
def parseIndex (s : String) : Option Nat :=
  match s.toList with
  | [] => none
  | c :: cs =>
    if (c :: cs).all (fun d => '0' ≤ d ∧ d ≤ '9') ∧ (c = '0' → cs = []) then
      some ((c :: cs).foldl (fun a d => a * 10 + (d.toNat - '0'.toNat)) 0)
    else none

/-- `Object.entries(value)` for the object-like values (`typeof value
=== 'object' && value !== null`): the fields of an object, or the
index/element pairs of an array. -/
def jsEntries : Json → Option (List (String × Json))
  | .obj fields => some fields
  | .arr elems => some ((enumFrom 0 elems).map fun p => (toString p.1, p.2))
  | _ => none

/-- Property access `value[field]` for object-like values, as used by
the required-field check (`field in obj` plus the `undefined`/`null`
tests).  Object fields are looked up by name, arrays by canonical
index. -/
def jsGet (data : Json) (field : String) : Option Json :=
  match data with
  | .obj fields => (fields.find? fun kv => kv.1 = field).map fun kv => kv.2
  | .arr elems => (parseIndex field).bind fun i => elems.get? i
  | _ => none

/-- A node of the JSON schema tree, with exactly the keys the validator
consults (`type`, `required`, `minLength`, `maxLength`, `pattern`,
`description`, `minimum`, `maximum`, `items`, `properties`, `enum`,
`oneOf`, `additionalProperties`).  A `pattern` is modelled by its match
function.  `required` and `oneOf` appear in `FLAG_SCHEMA` but are never
read by `validateProperty`; `required` and `additionalProperties` are
read only by the top-level `validateSchema`. -/
inductive Schema where
  | mk
    (type? : Option String)
    (required : List String)
    (minLength? : Option Nat)
    (maxLength? : Option Nat)
    (patternMatch? : Option (String → Bool))
    (description? : Option String)
    (minimum? : Option Rat)
    (maximum? : Option Rat)
    (items? : Option Schema)
    (properties? : Option (List (String × Schema)))
    (enum? : Option (List Json))
    (oneOf? : Option (List Schema))
    (additionalProperties? : Option Bool)

/-- Schema literal `{ type: 'string', minLength?, maxLength?, pattern?, description? }`. -/
def strSchema (minL maxL : Option Nat) (pat : Option (String → Bool))
    (desc : Option String) : Schema :=
  .mk (some "string") [] minL maxL pat desc none none none none none none none

/-- Schema literal `{ type: 'number', minimum?, maximum? }`. -/
def numSchema (lo hi : Option Rat) : Schema :=
  .mk (some "number") [] none none none none lo hi none none none none none

/-- Schema literal `{ type: 'boolean', description? }`. -/
def boolSchema (desc : Option String) : Schema :=
  .mk (some "boolean") [] none none none desc none none none none none none none

/-- Schema literal `{ type: 'array', items }`. -/
def arrSchema (item : Schema) : Schema :=
  .mk (some "array") [] none none none none none none (some item) none none none none

/-- Schema literal `{ type: 'object', required?, properties? }`. -/
def objSchema (required : List String) (props : Option (List (String × Schema))) : Schema :=
  .mk (some "object") required none none none none none none none props none none none

/-- Schema literal `{ type: 'string', enum: [...] }`. -/
def enumStrSchema (vals : List String) : Schema :=
  .mk (some "string") [] none none none none none none none none
    (some (vals.map Json.str)) none none

/-- Schema literal `{ oneOf: [...] }` — `validateProperty` never reads
`oneOf`, so such a node imposes no constraint. -/
def oneOfSchema (alts : List Schema) : Schema :=
  .mk none [] none none none none none none none none none (some alts) none

/-- The regular expression for flag keys,
`^[a-z0-9][a-z0-9-]*[a-z0-9]$|^[a-z0-9]$`: a single lowercase
alphanumeric character, or lowercase alphanumerics with interior
hyphens allowed. -/
def isLowerAlnum (c : Char) : Bool :=
  (decide ('a' ≤ c) && decide (c ≤ 'z')) || (decide ('0' ≤ c) && decide (c ≤ '9'))

/-- Whether a string matches the flag-key pattern: a one-character
string is a single `[a-z0-9]`; a longer string has `[a-z0-9]` at both
ends and `[a-z0-9-]` in between. -/
def keyPatternMatch (s : String) : Bool :=
  match s.toList with
  | [] => false
  | [c] => isLowerAlnum c
  | c :: cs =>
    isLowerAlnum c && isLowerAlnum (cs.getLastD c) &&
      cs.dropLast.all fun d => isLowerAlnum d || decide (d = '-')

/-- The schema node for targeting-property items
(`filters.groups[].properties[]`). -/
def propItemSchema : Schema :=
  objSchema ["key", "value"] (some
    [("key", strSchema (some 1) none none none),
     ("value", oneOfSchema
       [strSchema none none none none,
        numSchema none none,
        boolSchema none,
        arrSchema (strSchema none none none none)]),
     ("operator", strSchema none none none none),
     ("type", enumStrSchema ["person", "event", "group"])])

/-- The schema node for one targeting group (`filters.groups[]`). -/
def groupItemSchema : Schema :=
  objSchema [] (some
    [("properties", arrSchema propItemSchema),
     ("rollout_percentage", numSchema (some 0) (some 100)),
     ("variant", strSchema none none none none)])

/-- The schema node for one variant (`multivariate.variants[]` and
top-level `variants[]`). -/
def variantItemSchema : Schema :=
  objSchema ["key", "rollout_percentage"] (some
    [("key", strSchema (some 1) none none none),
     ("name", strSchema none none none none),
     ("rollout_percentage", numSchema (some 0) (some 100))])

/-- The schema node for `filters`. -/
def filtersSchema : Schema :=
  objSchema [] (some
    [("groups", arrSchema groupItemSchema),
     ("multivariate", objSchema [] (some
       [("variants", arrSchema variantItemSchema)])),
     ("payloads", objSchema [] none)])

/-- The schema node for `key`. -/
def keySchema : Schema :=
  strSchema (some 1) (some 100) (some keyPatternMatch)
    (some "Flag key must be lowercase alphanumeric with hyphens, no leading/trailing hyphens")

/-- The top-level `properties` map of `FLAG_SCHEMA`. -/
def flagProperties : List (String × Schema) :=
  [("key", keySchema),
   ("name", strSchema (some 1) (some 200) none
     (some "Flag name must be a non-empty string")),
   ("active", boolSchema (some "Flag active status must be a boolean")),
   ("description", strSchema none (some 1000) none
     (some "Optional description with reasonable length limit")),
   ("filters", filtersSchema),
   ("ensure_experience_continues", boolSchema none),
   ("variants", arrSchema variantItemSchema)]

/-- `FLAG_SCHEMA` from `src/validation.ts`. -/
def FLAG_SCHEMA : Schema :=
  .mk (some "object") ["key", "name", "active"] none none none none none none none
    (some flagProperties) none none (some false)

/-- Looking a property name up among a schema's own declared
`properties` entries. -/
def lookupSchema (props : List (String × Schema)) (k : String) : Option Schema :=
  (props.find? fun kv => kv.1 = k).map fun kv => kv.2

/-- The property names a plain JavaScript object inherits from
`Object.prototype` (together with the `__proto__` accessor): for these
keys, `schema.properties[key]` finds the inherited member even though no
property of that name is declared. -/
def protoProps : List String :=
  ["constructor", "hasOwnProperty", "isPrototypeOf", "propertyIsEnumerable",
   "toLocaleString", "toString", "valueOf", "__proto__",
   "__defineGetter__", "__defineSetter__", "__lookupGetter__", "__lookupSetter__"]

/-- The schema node an inherited `Object.prototype` member acts as when
it is used as a property schema: none of the keys `validateProperty`
consults (`type`, `minLength`, `maxLength`, `pattern`, `minimum`,
`maximum`, `items`, `properties`, `enum`) exists on the inherited
function or object, so every check is skipped. -/
def protoSchema : Schema :=
  .mk none [] none none none none none none none none none none none

/-- JavaScript property access `schema.properties[key]`: the declared
entry when one exists, and otherwise the truthy member inherited from
`Object.prototype` when the key names one (property access consults the
prototype chain), else `undefined`. -/
def jsSchemaLookup (props : List (String × Schema)) (k : String) : Option Schema :=
  match lookupSchema props k with
  | some sch => some sch
  | none => if protoProps.contains k then some protoSchema else none

/-- The `properties` field of a schema node. -/
def propsOf : Schema → Option (List (String × Schema))
  | .mk _ _ _ _ _ _ _ _ _ props? _ _ _ => props?

/-- The entries of an object value whose keys are declared in the
schema's `properties` map; the nested object check consults only
these. -/
def declaredEntries (schema : Schema) (fields : List (String × Json)) :
    List (String × Json) :=
  fields.filter fun kv => (lookupSchema ((propsOf schema).getD []) kv.1).isSome

/-- Recursion-depth budget for `validateProperty`.  The source function
recurses on the (finite) schema tree; `FLAG_SCHEMA` is at most 6 levels
deep, so with this fuel the budget is never exhausted on any call made
by `validateSchema`. -/
def schemaFuel : Nat := 16

/-- The type check of `validateProperty` (`if (schema.type) { ... }`):
a declared fundamental type that the value does not have short-circuits
the remaining checks with a single violation.  `typeof null` and
`typeof` of an array are `'object'`, but the object check also excludes
`null` and arrays explicitly, so only a JSON object passes it. -/
def typeCheckError (value : Json) (type? : Option String) (propertyName : String) :
    Option String :=
  match type? with
  | none => none
  | some t =>
    if t = "string" then
      match value with
      | .str _ => none
      | _ => some (propertyName ++ " must be a string")
    else if t = "number" then
      match value with
      | .num _ => none
      | _ => some (propertyName ++ " must be a number")
    else if t = "boolean" then
      match value with
      | .bool _ => none
      | _ => some (propertyName ++ " must be a boolean")
    else if t = "array" then
      match value with
      | .arr _ => none
      | _ => some (propertyName ++ " must be an array")
    else if t = "object" then
      match value with
      | .obj _ => none
      | _ => some (propertyName ++ " must be an object")
    else none

/-- The string checks of `validateProperty`: length bounds (skipped for
a bound of 0, which is falsy in JavaScript) and the pattern, with the
schema description in the pattern message when present and non-empty. -/
def stringErrors (value : Json) (minL? maxL? : Option Nat)
    (pat? : Option (String → Bool)) (desc? : Option String)
    (propertyName : String) : List String :=
  match value with
  | .str s =>
    (match minL? with
     | some m =>
       if m ≠ 0 ∧ s.length < m then
         [propertyName ++ " must be at least " ++ toString m ++ " characters long"]
       else []
     | none => []) ++
    (match maxL? with
     | some m =>
       if m ≠ 0 ∧ s.length > m then
         [propertyName ++ " must be no more than " ++ toString m ++ " characters long"]
       else []
     | none => []) ++
    (match pat? with
     | some pat =>
       if pat s then []
       else
         [propertyName ++ " format is invalid: " ++
           (match desc? with
            | some d => if d = "" then "must match pattern" else d
            | none => "must match pattern")]
     | none => [])
  | _ => []

/-- The numeric checks of `validateProperty`: inclusive range bounds,
applied whenever the bound is present (`!== undefined`). -/
def numberErrors (value : Json) (min? max? : Option Rat) (propertyName : String) :
    List String :=
  match value with
  | .num n =>
    (match min? with
     | some m => if n < m then [propertyName ++ " must be at least " ++ jsNumToString m] else []
     | none => []) ++
    (match max? with
     | some m => if n > m then [propertyName ++ " must be no more than " ++ jsNumToString m] else []
     | none => [])
  | _ => []

/-- The enum check of `validateProperty`
(`schema.enum && !schema.enum.includes(value)`). -/
def enumCheckErrors (value : Json) (enum? : Option (List Json)) (propertyName : String) :
    List String :=
  match enum? with
  | some vals =>
    if vals.any fun v => jsStrictEq v value then []
    else [propertyName ++ " must be one of: " ++ joinComma (vals.map jsDisplay)]
  | none => []

/-- The array check of `validateProperty`: when the value is an array
and the schema declares `items`, every element is validated with its
index appended in brackets.  The recursive call is passed in as `go`. -/
def arrayErrors (go : Json → Schema → String → List String) (value : Json)
    (items? : Option Schema) (propertyName : String) : List String :=
  match value, items? with
  | .arr elems, some itemSchema =>
    (enumFrom 0 elems).flatMap fun p =>
      go p.2 itemSchema (propertyName ++ "[" ++ toString p.1 ++ "]")
  | _, _ => []

/-- The object check of `validateProperty`: when the value is an object
and the schema declares `properties`, every entry whose
`schema.properties[key]` lookup is truthy — a declared entry, or one
named after an inherited `Object.prototype` member — is validated with
the key appended after a dot; entries whose lookup is `undefined` are
skipped without a violation.  The recursive call is passed in as `go`. -/
def objectErrors (go : Json → Schema → String → List String) (value : Json)
    (props? : Option (List (String × Schema))) (propertyName : String) : List String :=
  match value, props? with
  | .obj fields, some props =>
    fields.flatMap fun kv =>
      match jsSchemaLookup props kv.1 with
      | some propSchema => go kv.2 propSchema (propertyName ++ "." ++ kv.1)
      | none => []
  | _, _ => []

/-- `validateProperty(value, schema, propertyName)` from
`src/validation.ts` (lines 238–327): type check with early return, then
string length/pattern checks, numeric range checks, per-element array
checks, declared-property object checks, and the enum check, all
accumulated in source order. -/
def validateProperty : Nat → Json → Schema → String → List String
  | 0, _, _, _ => []
  | fuel + 1, value,
    .mk type? _req minL? maxL? pat? desc? min? max? items? props? enum? _oneOf _ap,
    propertyName =>
    match typeCheckError value type? propertyName with
    | some e => [e]
    | none =>
      stringErrors value minL? maxL? pat? desc? propertyName ++
      numberErrors value min? max? propertyName ++
      arrayErrors (validateProperty fuel) value items? propertyName ++
      objectErrors (validateProperty fuel) value props? propertyName ++
      enumCheckErrors value enum? propertyName

/-- `validateSchema(data, schema)` from `src/validation.ts` (lines
201–233): non-objects are rejected outright; otherwise the required
fields are checked first and then every entry of the data is looked up
with `schema.properties[key]` — prototype-chain access, so a key naming
an inherited `Object.prototype` member finds a truthy member and is
validated against it — and an entry whose lookup is falsy is an unknown
property, rejected because `FLAG_SCHEMA` sets
`additionalProperties: false`. -/
def validateSchema (data : Json) (schema : Schema) : List String :=
  match jsEntries data with
  | none => ["Data must be an object"]
  | some entries =>
    match schema with
    | .mk _ required _ _ _ _ _ _ _ props? _ _ addProps? =>
      let requiredErrors := required.filterMap fun field =>
        match jsGet data field with
        | none => some ("Missing required field: " ++ field)
        | some .null => some ("Missing required field: " ++ field)
        | some _ => none
      let propErrors := entries.flatMap fun kv =>
        match jsSchemaLookup (props?.getD []) kv.1 with
        | none =>
          if addProps?.getD false then [] else ["Unknown property: " ++ kv.1]
        | some propSchema => validateProperty schemaFuel kv.2 propSchema kv.1
      requiredErrors ++ propErrors

/-- `validateFlagSchema(flagData, fileName?)` from `src/validation.ts`
(lines 346–359): throws a `ValidationError` carrying every collected
violation when any exists, and otherwise returns the input unchanged. -/
def validateFlagSchema (flagData : Json) (fileName : Option String) :
    Except ValidationError Json :=
  let errors := validateSchema flagData FLAG_SCHEMA
  if errors.length > 0 then
    .error ⟨"Feature flag validation failed" ++
      (match fileName with | some f => " in " ++ f | none => ""),
      errors,
      (match fileName with | some f => [("fileName", .str f)] | none => [])⟩
  else
    .ok flagData

/-! ## `validateFileSize` (`src/validation.ts`, lines 368–402) -/

/-- The filesystem as observed by `Bun.file`: the byte size of each
existing file. -/
def FileSystem : Type := String → Option Nat

/-- The default ceiling, `1024 * 1024` bytes. -/
def defaultMaxFileSize : Nat := 1024 * 1024

/-- `validateFileSize(filePath, maxSizeBytes)`: fails when the file does
not exist, fails when its size exceeds the ceiling, succeeds otherwise.
The surrounding `try`/`catch` only re-wraps foreign exceptions, which
the model's filesystem cannot produce. -/
def validateFileSize (fs : FileSystem) (filePath : String) (maxSizeBytes : Nat) :
    Except ValidationError Unit :=
  match fs filePath with
  | none =>
    .error ⟨"File does not exist", ["File not found: " ++ filePath],
      [("filePath", .str filePath)]⟩
  | some stats =>
    if stats > maxSizeBytes then
      .error ⟨"File size exceeds maximum allowed size",
        ["File size: " ++ toString stats ++ " bytes, maximum: " ++
          toString maxSizeBytes ++ " bytes"],
        [("filePath", .str filePath), ("fileSize", .num stats),
         ("maxSize", .num maxSizeBytes)]⟩
    else
      .ok ()

/-! ## General lemmas about `validateSchema` and `validateFlagSchema` -/

/-- Validating any value against an inherited `Object.prototype` member
produces no violation: every key `validateProperty` consults is absent
on it. -/
theorem validateProperty_protoSchema (fuel : Nat) (v : Json) (pn : String) :
    validateProperty fuel v protoSchema pn = [] := by
  cases fuel with
  | zero => rfl
  | succ fuel => cases v <;> rfl

/-- A missing (or `null`) required field always contributes its
missing-required-field violation. -/
theorem mem_validateSchema_missing_required (data : Json) (entries : List (String × Json))
    (f : String) (hent : jsEntries data = some entries)
    (hreq : f ∈ ["key", "name", "active"])
    (hmiss : jsGet data f = none ∨ jsGet data f = some .null) :
    ("Missing required field: " ++ f) ∈ validateSchema data FLAG_SCHEMA := by
  simp only [validateSchema, FLAG_SCHEMA, hent]
  refine List.mem_append.mpr (Or.inl ?_)
  refine List.mem_filterMap.mpr ⟨f, hreq, ?_⟩
  rcases hmiss with h | h <;> rw [h]

/-- A top-level property whose `schema.properties` lookup is falsy —
neither declared nor inherited from `Object.prototype` — always
contributes its unknown-property violation. -/
theorem mem_validateSchema_unknown (data : Json) (entries : List (String × Json))
    (k : String) (v : Json) (hent : jsEntries data = some entries)
    (hkv : (k, v) ∈ entries) (hlook : jsSchemaLookup flagProperties k = none) :
    ("Unknown property: " ++ k) ∈ validateSchema data FLAG_SCHEMA := by
  simp only [validateSchema, FLAG_SCHEMA, hent]
  refine List.mem_append.mpr (Or.inr ?_)
  refine List.mem_flatMap.mpr ⟨(k, v), hkv, ?_⟩
  simp only [Option.getD_some, hlook]
  simp

/-- A violation produced for a declared top-level property is collected
into the result of `validateSchema`. -/
theorem mem_validateSchema_prop (data : Json) (entries : List (String × Json))
    (k : String) (v : Json) (ps : Schema) (msg : String)
    (hent : jsEntries data = some entries) (hkv : (k, v) ∈ entries)
    (hlook : jsSchemaLookup flagProperties k = some ps)
    (hmsg : msg ∈ validateProperty schemaFuel v ps k) :
    msg ∈ validateSchema data FLAG_SCHEMA := by
  simp only [validateSchema, FLAG_SCHEMA, hent]
  refine List.mem_append.mpr (Or.inr ?_)
  refine List.mem_flatMap.mpr ⟨(k, v), hkv, ?_⟩
  simp only [Option.getD_some, hlook]
  exact hmsg

/-- When any violation is collected, `validateFlagSchema` throws, and
the thrown error's violation list is the entire collected list. -/
theorem validateFlagSchema_error_of_mem (data : Json) (fn : Option String) (msg : String)
    (hmsg : msg ∈ validateSchema data FLAG_SCHEMA) :
    ∃ e, validateFlagSchema data fn = .error e ∧
      e.validationErrors = validateSchema data FLAG_SCHEMA ∧
      msg ∈ e.validationErrors := by
  refine ⟨⟨"Feature flag validation failed" ++
      (match fn with | some f => " in " ++ f | none => ""),
      validateSchema data FLAG_SCHEMA,
      (match fn with | some f => [("fileName", .str f)] | none => [])⟩, ?_, rfl, hmsg⟩
  simp only [validateFlagSchema]
  rw [if_pos]
  exact List.length_pos.mpr (List.ne_nil_of_mem hmsg)

/-- When no violation is collected, `validateFlagSchema` returns its
input unchanged. -/
theorem validateFlagSchema_ok (data : Json) (fn : Option String)
    (h : validateSchema data FLAG_SCHEMA = []) :
    validateFlagSchema data fn = .ok data := by
  simp only [validateFlagSchema, h]
  rfl

/-! ## Claim C5: `validateFileSize` -/

/-- Claim C5: `validateFileSize(path, maxBytes)` fails with the
file-not-found `ValidationError` when the target file does not exist;
for an existing file it succeeds exactly when the file's byte size is at
most `maxBytes` — a file of exactly `maxBytes` succeeds and a file of
`maxBytes + 1` fails with the file-too-large `ValidationError` carrying
the path, actual size, and `maxBytes` as context; the default ceiling is
1048576 bytes. -/
theorem validateFileSize_spec (fs : FileSystem) (p : String) (maxB n : Nat) :
    (fs p = none → validateFileSize fs p maxB =
      .error ⟨"File does not exist", ["File not found: " ++ p], [("filePath", .str p)]⟩) ∧
    (fs p = some n → (validateFileSize fs p maxB = .ok () ↔ n ≤ maxB)) ∧
    (fs p = some maxB → validateFileSize fs p maxB = .ok ()) ∧
    (fs p = some (maxB + 1) → validateFileSize fs p maxB =
      .error ⟨"File size exceeds maximum allowed size",
        ["File size: " ++ toString (maxB + 1) ++ " bytes, maximum: " ++
          toString maxB ++ " bytes"],
        [("filePath", .str p), ("fileSize", .num (maxB + 1)), ("maxSize", .num maxB)]⟩) ∧
    defaultMaxFileSize = 1048576 := by
  refine ⟨fun h => ?_, fun h => ?_, fun h => ?_, fun h => ?_, rfl⟩ <;>
    simp only [validateFileSize, h]
  · constructor
    · intro hc
      by_contra hgt
      rw [if_pos (by omega : n > maxB)] at hc
      exact absurd hc (by simp)
    · intro hle
      rw [if_neg (by omega : ¬ n > maxB)]
  · simp
  · simp

/-- Witness for C5 at a concrete filesystem holding one file of
1048577 bytes, checked against the default ceiling. -/
theorem validateFileSize_spec_witness :
    ((fun q => if q = "f" then some 1048577 else none) : FileSystem) "f" = some (1048576 + 1) ∧
    validateFileSize (fun q => if q = "f" then some 1048577 else none) "f" 1048576 =
      .error ⟨"File size exceeds maximum allowed size",
        ["File size: " ++ toString (1048576 + 1) ++ " bytes, maximum: " ++
          toString 1048576 ++ " bytes"],
        [("filePath", .str "f"), ("fileSize", .num (1048576 + 1)), ("maxSize", .num 1048576)]⟩ :=
  ⟨by decide,
   (validateFileSize_spec (fun q => if q = "f" then some 1048577 else none)
     "f" 1048576 0).2.2.2.1 (by decide)⟩

/-! ## Claim C4: invalid inputs to `validatePath` -/

/-- Counterexample to C4: `"a\x00b/.."` contains a NUL byte, yet
`validatePath` does not fail on it — normalization removes the
NUL-carrying segment before the NUL check runs, and the call returns the
base directory. -/
theorem validatePath_invalid_inputs_cex :
    strContainsChar "a\x00b/.." nulChar = true ∧
    validatePath "/" "a\x00b/.." "/home/user/project" = .ok "/home/user/project" := by
  constructor
  · decide
  · decide

/-- Claim C4 as amended: the empty string fails with the invalid-path
`ValidationError`; a string whose normalized form still contains a NUL
byte never succeeds, fails with the null-byte invalid-path
`ValidationError` exactly when the containment check passes, and when
that check fails instead fails with the path-traversal kind of
`ValidationError` (the traversal check runs first); a NUL-carrying input
whose normalization drops the NUL can succeed. -/
theorem validatePath_invalid_inputs_amended (cwd s basePath : String)
    (hnul : strContainsChar (normalize s) nulChar = true) :
    (∀ base2, validatePath cwd "" base2 =
      .error ⟨"Invalid file path: path must be a non-empty string", [],
        [("filePath", .str ""), ("basePath", .str base2)]⟩) ∧
    (∀ p, validatePath cwd s basePath ≠ .ok p) ∧
    (validatePath cwd s basePath =
        .error ⟨"Invalid file path: null bytes not allowed", [],
          [("filePath", .str s), ("basePath", .str basePath)]⟩ ↔
      ¬ (strStartsWith (relative cwd (resolvePath cwd [basePath])
            (resolvePath cwd [basePath, normalize s])) ".." = true ∨
          resolvePath cwd [resolvePath cwd [basePath],
            relative cwd (resolvePath cwd [basePath])
              (resolvePath cwd [basePath, normalize s])] ≠
            resolvePath cwd [basePath, normalize s])) ∧
    ((strStartsWith (relative cwd (resolvePath cwd [basePath])
          (resolvePath cwd [basePath, normalize s])) ".." = true ∨
        resolvePath cwd [resolvePath cwd [basePath],
          relative cwd (resolvePath cwd [basePath])
            (resolvePath cwd [basePath, normalize s])] ≠
          resolvePath cwd [basePath, normalize s]) →
      validatePath cwd s basePath =
        .error ⟨"Path traversal detected: file path must be within the base directory",
          ["Path \"" ++ s ++ "\" resolves outside base directory \"" ++ basePath ++ "\""],
          [("filePath", .str s), ("basePath", .str basePath),
           ("resolvedPath", .str (resolvePath cwd [basePath, normalize s])),
           ("relativePath", .str (relative cwd (resolvePath cwd [basePath])
             (resolvePath cwd [basePath, normalize s])))]⟩) := by
  have hs : s ≠ "" := by
    intro h
    rw [h] at hnul
    exact absurd hnul (by decide)
  by_cases hg : strStartsWith (relative cwd (resolvePath cwd [basePath])
        (resolvePath cwd [basePath, normalize s])) ".." = true ∨
      resolvePath cwd [resolvePath cwd [basePath],
        relative cwd (resolvePath cwd [basePath])
          (resolvePath cwd [basePath, normalize s])] ≠
        resolvePath cwd [basePath, normalize s]
  · have hvp : validatePath cwd s basePath =
        .error ⟨"Path traversal detected: file path must be within the base directory",
          ["Path \"" ++ s ++ "\" resolves outside base directory \"" ++ basePath ++ "\""],
          [("filePath", .str s), ("basePath", .str basePath),
           ("resolvedPath", .str (resolvePath cwd [basePath, normalize s])),
           ("relativePath", .str (relative cwd (resolvePath cwd [basePath])
             (resolvePath cwd [basePath, normalize s])))]⟩ := by
      simp only [validatePath, if_neg hs, if_pos hg]
    refine ⟨fun base2 => rfl, ?_, ?_, fun _ => hvp⟩
    · intro p hok
      rw [hvp] at hok
      exact absurd hok (by simp)
    · constructor
      · intro heq
        rw [hvp] at heq
        have h3 := congrArg errOfExcept heq
        simp only [errOfExcept, Option.some.injEq] at h3
        exact absurd (congrArg ValidationError.message h3)
          (show ¬("Path traversal detected: file path must be within the base directory"
              : String) = "Invalid file path: null bytes not allowed" from by decide)
      · intro hng
        exact absurd hg hng
  · have hvp : validatePath cwd s basePath =
        .error ⟨"Invalid file path: null bytes not allowed", [],
          [("filePath", .str s), ("basePath", .str basePath)]⟩ := by
      simp only [validatePath, if_neg hs, if_neg hg, if_pos hnul]
    refine ⟨fun base2 => rfl, ?_, ⟨fun _ => hg, fun _ => hvp⟩, fun hguard => absurd hguard hg⟩
    intro p hok
    rw [hvp] at hok
    exact absurd hok (by simp)

/-- Witness for C4 at `s = "fo\x00o"`, whose normalization keeps the NUL
byte and whose containment check passes, and at `s = "..\x00"`, which
escapes the base and fails with the path-traversal kind instead. -/
theorem validatePath_invalid_inputs_witness :
    strContainsChar (normalize "fo\x00o") nulChar = true ∧
    validatePath "/" "fo\x00o" "/home/user/project" =
      .error ⟨"Invalid file path: null bytes not allowed", [],
        [("filePath", .str "fo\x00o"), ("basePath", .str "/home/user/project")]⟩ ∧
    strContainsChar (normalize "..\x00") nulChar = true ∧
    validatePath "/" "..\x00" "/home/user/project" =
      .error ⟨"Path traversal detected: file path must be within the base directory",
        ["Path \"..\x00\" resolves outside base directory \"/home/user/project\""],
        [("filePath", .str "..\x00"), ("basePath", .str "/home/user/project"),
         ("resolvedPath", .str (resolvePath "/" ["/home/user/project", normalize "..\x00"])),
         ("relativePath", .str (relative "/" (resolvePath "/" ["/home/user/project"])
           (resolvePath "/" ["/home/user/project", normalize "..\x00"])))]⟩ :=
  ⟨by decide,
   ((validatePath_invalid_inputs_amended "/" "fo\x00o" "/home/user/project"
     (by decide)).2.2.1).mpr (by decide),
   by decide,
   (validatePath_invalid_inputs_amended "/" "..\x00" "/home/user/project"
     (by decide)).2.2.2 (by decide)⟩

/-! ## Claim C10: non-object inputs to `validateFlagSchema` -/

/-- An element reachable by index is listed by `enumFrom` with that
index (shifted by the starting offset). -/
theorem mem_enumFrom {α : Type} (l : List α) (n i : Nat) (x : α)
    (h : l.get? i = some x) : (n + i, x) ∈ enumFrom n l := by
  induction l generalizing n i with
  | nil => simp at h
  | cons a t ih =>
    cases i with
    | zero =>
      simp only [List.get?] at h
      injection h with h
      subst h
      simp [enumFrom]
    | succ j =>
      simp only [List.get?] at h
      have hm := ih (n + 1) j h
      refine List.mem_cons_of_mem _ ?_
      have harith : n + (j + 1) = n + 1 + j := by omega
      rw [harith]
      exact hm

/-- The digit characters produced by `Nat.digitChar` below base 10. -/
theorem digitChar_digit (m : Nat) (h : m < 10) :
    '0' ≤ Nat.digitChar m ∧ Nat.digitChar m ≤ '9' := by
  have h10 : m = 0 ∨ m = 1 ∨ m = 2 ∨ m = 3 ∨ m = 4 ∨ m = 5 ∨ m = 6 ∨ m = 7 ∨
      m = 8 ∨ m = 9 := by omega
  rcases h10 with rfl | rfl | rfl | rfl | rfl | rfl | rfl | rfl | rfl | rfl <;> decide

/-- Every character of `Nat.toDigitsCore 10` is a decimal digit. -/
theorem toDigitsCore_digits (fuel : Nat) :
    ∀ (n : Nat) (ds : List Char), (∀ c ∈ ds, '0' ≤ c ∧ c ≤ '9') →
      ∀ c ∈ Nat.toDigitsCore 10 fuel n ds, '0' ≤ c ∧ c ≤ '9' := by
  induction fuel with
  | zero => exact fun n ds hds c hc => hds c hc
  | succ fuel ih =>
    intro n ds hds c hc
    simp only [Nat.toDigitsCore] at hc
    by_cases hz : n / 10 = 0
    · rw [if_pos hz] at hc
      rcases List.mem_cons.mp hc with rfl | h2
      · exact digitChar_digit (n % 10) (Nat.mod_lt n (by omega))
      · exact hds c h2
    · rw [if_neg hz] at hc
      refine ih (n / 10) (Nat.digitChar (n % 10) :: ds) ?_ c hc
      intro d hd
      rcases List.mem_cons.mp hd with rfl | h2
      · exact digitChar_digit (n % 10) (Nat.mod_lt n (by omega))
      · exact hds d h2

/-- `Nat.toDigitsCore 10` never returns the empty list when seeded with a
non-empty accumulator. -/
theorem toDigitsCore_ne_nil (fuel : Nat) :
    ∀ (n : Nat) (ds : List Char), ds ≠ [] → Nat.toDigitsCore 10 fuel n ds ≠ [] := by
  induction fuel with
  | zero => exact fun n ds h => h
  | succ fuel ih =>
    intro n ds h
    simp only [Nat.toDigitsCore]
    by_cases hz : n / 10 = 0
    · rw [if_pos hz]
      simp
    · rw [if_neg hz]
      exact ih (n / 10) _ (by simp)

/-- The decimal rendering of a natural number is a non-empty string of
decimal digits. -/
theorem toString_nat_digits (i : Nat) :
    (toString i).toList ≠ [] ∧ ∀ c ∈ (toString i).toList, '0' ≤ c ∧ c ≤ '9' := by
  have h1 : (toString i).toList = Nat.toDigits 10 i := rfl
  rw [h1]
  constructor
  · show Nat.toDigitsCore 10 (i + 1) i [] ≠ []
    simp only [Nat.toDigitsCore]
    by_cases hz : i / 10 = 0
    · rw [if_pos hz]
      simp
    · rw [if_neg hz]
      exact toDigitsCore_ne_nil i (i / 10) _ (by simp)
  · show ∀ c ∈ Nat.toDigitsCore 10 (i + 1) i [], _
    exact toDigitsCore_digits (i + 1) i [] (by simp)

/-- An all-digit key is neither declared in the flag schema's
`properties` nor inherited from `Object.prototype`: every such name
starts with a letter or an underscore, never a digit. -/
theorem jsSchemaLookup_digit_none (s : String) (hne : s.toList ≠ [])
    (hdig : ∀ c ∈ s.toList, '0' ≤ c ∧ c ≤ '9') :
    jsSchemaLookup flagProperties s = none := by
  obtain ⟨c, cs, hcs⟩ := List.exists_cons_of_ne_nil hne
  have hc : '0' ≤ c ∧ c ≤ '9' := hdig c (by rw [hcs]; exact List.mem_cons_self _ _)
  have hlit : ∀ (t : String) (d : Char) (ds : List Char), t.toList = d :: ds →
      ¬('0' ≤ d ∧ d ≤ '9') → t ≠ s := by
    intro t d ds ht hd heq
    subst heq
    rw [hcs] at ht
    injection ht with h1 h2
    subst h1
    exact hd hc
  have hfind : lookupSchema flagProperties s = none := by
    have hall : ∀ kv ∈ flagProperties, ¬ ((fun kv : String × Schema =>
        decide (kv.1 = s)) kv = true) := by
      intro kv hkv
      simp only [flagProperties, List.mem_cons, List.mem_singleton] at hkv
      rcases hkv with rfl | rfl | rfl | rfl | rfl | rfl | rfl | h
      · exact fun hb => hlit "key" 'k' ['e', 'y'] rfl (by decide) (of_decide_eq_true hb)
      · exact fun hb => hlit "name" 'n' ['a', 'm', 'e'] rfl (by decide)
          (of_decide_eq_true hb)
      · exact fun hb => hlit "active" 'a' ['c', 't', 'i', 'v', 'e'] rfl (by decide)
          (of_decide_eq_true hb)
      · exact fun hb => hlit "description" 'd'
          ['e', 's', 'c', 'r', 'i', 'p', 't', 'i', 'o', 'n'] rfl (by decide)
          (of_decide_eq_true hb)
      · exact fun hb => hlit "filters" 'f' ['i', 'l', 't', 'e', 'r', 's'] rfl (by decide)
          (of_decide_eq_true hb)
      · exact fun hb => hlit "ensure_experience_continues" 'e'
          ['n', 's', 'u', 'r', 'e', '_', 'e', 'x', 'p', 'e', 'r', 'i', 'e', 'n', 'c',
           'e', '_', 'c', 'o', 'n', 't', 'i', 'n', 'u', 'e', 's'] rfl (by decide)
          (of_decide_eq_true hb)
      · exact fun hb => hlit "variants" 'v' ['a', 'r', 'i', 'a', 'n', 't', 's'] rfl
          (by decide) (of_decide_eq_true hb)
      · simp at h
    unfold lookupSchema
    rw [List.find?_eq_none.mpr hall]
    rfl
  have hcont : protoProps.contains s = false := by
    cases hcon : protoProps.contains s with
    | false => rfl
    | true =>
      exfalso
      have hm : s ∈ protoProps := List.elem_iff.mp hcon
      simp only [protoProps, List.mem_cons, List.mem_singleton] at hm
      rcases hm with rfl | rfl | rfl | rfl | rfl | rfl | rfl | rfl | rfl | rfl | rfl | rfl | h
      all_goals first
        | (injection hcs with h1 h2; subst h1; exact absurd hc (by decide))
        | simp at h
  unfold jsSchemaLookup
  rw [hfind, hcont]
  rfl

/-- Counterexample to C10: the array `[null]` is treated as an object at
top level, but its validation does not fail with only the three
missing-required-field violations — the array index `0` is an
undeclared property and adds a fourth, unknown-property violation. -/
theorem validateFlagSchema_nonobject_cex :
    errOfExcept (validateFlagSchema (.arr [.null]) none) =
      some ⟨"Feature flag validation failed",
        ["Missing required field: key", "Missing required field: name",
         "Missing required field: active", "Unknown property: 0"], []⟩ ∧
    ¬ (validateSchema (.arr [.null]) FLAG_SCHEMA =
      ["Missing required field: key", "Missing required field: name",
       "Missing required field: active"]) := by
  constructor
  · decide
  · decide

/-- Claim C10 as amended: for every input that is `null`, a boolean, a
number, or a string, the thrown `ValidationError` carries exactly the
single violation `Data must be an object`; an array passes the top-level
object check, and an empty array fails with exactly the three
missing-required-field violations, while a non-empty array additionally
collects an unknown-property violation for each of its indices (for
example `Unknown property: 0`). -/
theorem validateFlagSchema_nonobject_amended :
    (∀ fn, (errOfExcept (validateFlagSchema .null fn)).map ValidationError.validationErrors =
      some ["Data must be an object"]) ∧
    (∀ b fn, (errOfExcept (validateFlagSchema (.bool b) fn)).map ValidationError.validationErrors =
      some ["Data must be an object"]) ∧
    (∀ n fn, (errOfExcept (validateFlagSchema (.num n) fn)).map ValidationError.validationErrors =
      some ["Data must be an object"]) ∧
    (∀ s fn, (errOfExcept (validateFlagSchema (.str s) fn)).map ValidationError.validationErrors =
      some ["Data must be an object"]) ∧
    (∀ fn, (errOfExcept (validateFlagSchema (.arr []) fn)).map ValidationError.validationErrors =
      some ["Missing required field: key", "Missing required field: name",
            "Missing required field: active"]) ∧
    (∀ x xs, "Missing required field: key" ∈ validateSchema (.arr (x :: xs)) FLAG_SCHEMA ∧
      "Missing required field: name" ∈ validateSchema (.arr (x :: xs)) FLAG_SCHEMA ∧
      "Missing required field: active" ∈ validateSchema (.arr (x :: xs)) FLAG_SCHEMA ∧
      ∀ i, i < (x :: xs).length →
        ("Unknown property: " ++ toString i) ∈ validateSchema (.arr (x :: xs)) FLAG_SCHEMA) := by
  refine ⟨fun fn => rfl, fun b fn => rfl, fun n fn => rfl, fun s fn => rfl, fun fn => rfl, ?_⟩
  intro x xs
  have hent : jsEntries (.arr (x :: xs)) =
      some (("0", x) :: (enumFrom 1 xs).map fun p => (toString p.1, p.2)) := by
    show some ((enumFrom 0 (x :: xs)).map fun p => (toString p.1, p.2)) = _
    simp only [enumFrom, List.map_cons]
    rfl
  refine ⟨mem_validateSchema_missing_required _ _ "key" hent (by simp) (Or.inl rfl),
    mem_validateSchema_missing_required _ _ "name" hent (by simp) (Or.inl rfl),
    mem_validateSchema_missing_required _ _ "active" hent (by simp) (Or.inl rfl), ?_⟩
  intro i hilen
  obtain ⟨elem, helem⟩ : ∃ elem, (x :: xs).get? i = some elem :=
    ⟨_, List.get?_eq_get hilen⟩
  have hent0 : jsEntries (.arr (x :: xs)) =
      some ((enumFrom 0 (x :: xs)).map fun p => (toString p.1, p.2)) := rfl
  have hkv : (toString i, elem) ∈ (enumFrom 0 (x :: xs)).map
      fun p => (toString p.1, p.2) := by
    refine List.mem_map.mpr ⟨(i, elem), ?_, rfl⟩
    have hm := mem_enumFrom (x :: xs) 0 i elem helem
    simpa using hm
  have hdigs := toString_nat_digits i
  exact mem_validateSchema_unknown (.arr (x :: xs)) _ (toString i) elem hent0 hkv
    (jsSchemaLookup_digit_none (toString i) hdigs.1 hdigs.2)

/-! ## Lemmas about the flag-key pattern -/

/-- A matching key is non-empty. -/
theorem keyPatternMatch_ne_nil (s : String) (h : keyPatternMatch s = true) :
    s.toList ≠ [] := by
  intro hl
  unfold keyPatternMatch at h
  rw [hl] at h
  exact absurd (show (false : Bool) = true from h) (by decide)

/-- Every character of a matching key is lowercase alphanumeric or a
hyphen. -/
theorem keyPatternMatch_chars (s : String) (h : keyPatternMatch s = true) :
    ∀ c ∈ s.toList, isLowerAlnum c = true ∨ c = '-' := by
  intro c hc
  unfold keyPatternMatch at h
  match hl : s.toList with
  | [] =>
    rw [hl] at hc
    simp at hc
  | [a] =>
    rw [hl] at h hc
    simp only [List.mem_singleton] at hc
    subst hc
    exact Or.inl h
  | a :: b :: rest =>
    rw [hl] at h hc
    simp only [Bool.and_eq_true, List.all_eq_true] at h
    obtain ⟨⟨h1, h2⟩, h3⟩ := h
    rcases List.mem_cons.mp hc with rfl | hc2
    · exact Or.inl h1
    · have hsplit : (b :: rest).dropLast ++ [(b :: rest).getLast (by simp)] = b :: rest :=
        List.dropLast_append_getLast (by simp)
      rw [← hsplit] at hc2
      rcases List.mem_append.mp hc2 with hd | hlast
      · have hall := h3 c hd
        simp only [Bool.or_eq_true, decide_eq_true_eq] at hall
        exact hall
      · simp only [List.mem_singleton] at hlast
        subst hlast
        rw [List.getLastD_eq_getLast?, List.getLast?_eq_getLast _ (by simp)] at h2
        simp only [Option.getD_some] at h2
        exact Or.inl h2

/-- The first character of a matching key is lowercase alphanumeric. -/
theorem keyPatternMatch_head (s : String) (h : keyPatternMatch s = true) :
    ∀ c, s.toList.head? = some c → isLowerAlnum c = true := by
  intro c hc
  unfold keyPatternMatch at h
  match hl : s.toList with
  | [] =>
    rw [hl] at hc
    simp at hc
  | [a] =>
    rw [hl] at h hc
    simp only [List.head?_cons, Option.some.injEq] at hc
    subst hc
    exact h
  | a :: b :: rest =>
    rw [hl] at h hc
    simp only [List.head?_cons, Option.some.injEq] at hc
    subst hc
    simp only [Bool.and_eq_true] at h
    exact h.1.1

/-- The last character of a matching key is lowercase alphanumeric. -/
theorem keyPatternMatch_last (s : String) (h : keyPatternMatch s = true) :
    ∀ c, s.toList.getLast? = some c → isLowerAlnum c = true := by
  intro c hc
  unfold keyPatternMatch at h
  match hl : s.toList with
  | [] =>
    rw [hl] at hc
    simp at hc
  | [a] =>
    rw [hl] at h hc
    simp only [List.getLast?_singleton, Option.some.injEq] at hc
    subst hc
    exact h
  | a :: b :: rest =>
    rw [hl] at h hc
    simp only [Bool.and_eq_true] at h
    obtain ⟨⟨h1, h2⟩, h3⟩ := h
    rw [List.getLast?_cons_cons] at hc
    rw [List.getLastD_eq_getLast?, hc] at h2
    simp only [Option.getD_some] at h2
    exact h2

/-- An uppercase letter is neither lowercase alphanumeric nor a
hyphen. -/
theorem isUpper_not_keyChar (c : Char) (h : c.isUpper = true) :
    isLowerAlnum c = false ∧ c ≠ '-' := by
  constructor
  · simp only [Char.isUpper, Bool.and_eq_true, decide_eq_true_eq, Char.le_def,
      UInt32.le_def, BitVec.le_def] at h
    simp only [isLowerAlnum, Bool.or_eq_true, Bool.and_eq_true, decide_eq_true_eq, Char.le_def,
      UInt32.le_def, BitVec.le_def]
    simp only [Bool.or_eq_false_iff, Bool.and_eq_false_iff, decide_eq_false_iff_not, not_le,
      Char.lt_def, UInt32.lt_def, BitVec.lt_def]
    obtain ⟨h1, h2⟩ := h
    have e1 : (UInt32.toBitVec 65).toNat = 65 := rfl
    have e2 : (UInt32.toBitVec 90).toNat = 90 := rfl
    have e3 : ('a'.val.toBitVec.toNat) = 97 := rfl
    have e4 : ('z'.val.toBitVec.toNat) = 122 := rfl
    have e5 : ('0'.val.toBitVec.toNat) = 48 := rfl
    have e6 : ('9'.val.toBitVec.toNat) = 57 := rfl
    constructor
    · left
      omega
    · right
      omega
  · intro hc
    rw [hc] at h
    exact absurd h (by decide)

/-- All the key shapes rejected by the specification fail the pattern:
an uppercase letter, an underscore, a space, a leading or trailing
hyphen, or the empty string. -/
theorem keyPatternMatch_eq_false (s : String)
    (hbad : (∃ c ∈ s.toList, c.isUpper = true) ∨ '_' ∈ s.toList ∨ ' ' ∈ s.toList ∨
      s.toList.head? = some '-' ∨ s.toList.getLast? = some '-' ∨ s.toList = []) :
    keyPatternMatch s = false := by
  cases h : keyPatternMatch s
  · rfl
  · exfalso
    rcases hbad with ⟨c, hc, hup⟩ | hu | hsp | hh | hl | hnil
    · rcases keyPatternMatch_chars s h c hc with hla | hd
      · rw [(isUpper_not_keyChar c hup).1] at hla
        exact absurd hla (by decide)
      · exact (isUpper_not_keyChar c hup).2 hd
    · rcases keyPatternMatch_chars s h _ hu with hla | hd
      · exact absurd hla (by decide)
      · exact absurd hd (by decide)
    · rcases keyPatternMatch_chars s h _ hsp with hla | hd
      · exact absurd hla (by decide)
      · exact absurd hd (by decide)
    · exact absurd (keyPatternMatch_head s h '-' hh) (by decide)
    · exact absurd (keyPatternMatch_last s h '-' hl) (by decide)
    · exact keyPatternMatch_ne_nil s h hnil

/-! ## Claim C6: all violations collected in one pass -/

/-- Claim C6: `validateFlagSchema` collects all violations in a single
pass rather than failing fast — for every invalid flag object (one whose
collected violation list is non-empty), the thrown error's attached
violation list is the entire collected list; every missing (or `null`)
required field among `key`, `name`, `active` contributes a violation
referencing it to that list; and an object missing all three yields
exactly the three missing-field violations in one error. -/
theorem validateFlagSchema_collects_all (data : Json) (fn : Option String)
    (hinv : validateSchema data FLAG_SCHEMA ≠ []) :
    (∃ e, validateFlagSchema data fn = .error e ∧
      e.validationErrors = validateSchema data FLAG_SCHEMA) ∧
    (∀ entries f, jsEntries data = some entries →
      f ∈ ["key", "name", "active"] →
      (jsGet data f = none ∨ jsGet data f = some .null) →
      ∃ e, validateFlagSchema data fn = .error e ∧
        ("Missing required field: " ++ f) ∈ e.validationErrors) ∧
    errOfExcept (validateFlagSchema (.obj []) none) =
      some ⟨"Feature flag validation failed",
        ["Missing required field: key", "Missing required field: name",
         "Missing required field: active"], []⟩ := by
  obtain ⟨msg, hmsg⟩ := List.exists_mem_of_ne_nil _ hinv
  refine ⟨?_, ?_, by decide⟩
  · obtain ⟨e, h1, h2, _⟩ := validateFlagSchema_error_of_mem data fn msg hmsg
    exact ⟨e, h1, h2⟩
  · intro entries f hent hreq hmiss
    have hmem := mem_validateSchema_missing_required data entries f hent hreq hmiss
    obtain ⟨e, h1, _, h3⟩ := validateFlagSchema_error_of_mem data fn _ hmem
    exact ⟨e, h1, h3⟩

/-- Witness for C6 at an invalid flag whose required fields are all
present — only its `key` is malformed — showing the attached list is the
whole collected list even without a missing required field. -/
theorem validateFlagSchema_collects_all_witness :
    validateSchema (.obj [("key", .str "UPPERCASE"), ("name", .str "x"),
      ("active", .bool true)]) FLAG_SCHEMA ≠ [] ∧
    ((∃ e, validateFlagSchema (.obj [("key", .str "UPPERCASE"), ("name", .str "x"),
        ("active", .bool true)]) none = .error e ∧
      e.validationErrors = validateSchema (.obj [("key", .str "UPPERCASE"),
        ("name", .str "x"), ("active", .bool true)]) FLAG_SCHEMA) ∧
    (∀ entries f,
      jsEntries (Json.obj [("key", .str "UPPERCASE"), ("name", .str "x"),
        ("active", .bool true)]) = some entries →
      f ∈ ["key", "name", "active"] →
      (jsGet (.obj [("key", .str "UPPERCASE"), ("name", .str "x"),
        ("active", .bool true)]) f = none ∨
       jsGet (.obj [("key", .str "UPPERCASE"), ("name", .str "x"),
        ("active", .bool true)]) f = some .null) →
      ∃ e, validateFlagSchema (.obj [("key", .str "UPPERCASE"), ("name", .str "x"),
        ("active", .bool true)]) none = .error e ∧
        ("Missing required field: " ++ f) ∈ e.validationErrors) ∧
    errOfExcept (validateFlagSchema (.obj []) none) =
      some ⟨"Feature flag validation failed",
        ["Missing required field: key", "Missing required field: name",
         "Missing required field: active"], []⟩) :=
  ⟨by decide,
   validateFlagSchema_collects_all
     (.obj [("key", .str "UPPERCASE"), ("name", .str "x"), ("active", .bool true)])
     none (by decide)⟩

/-! ## Claim C7: the key pattern decides validation -/

/-- A key matching the pattern with length at most 100 produces no
violation at all on the `key` property. -/
theorem validateProperty_key_ok (fuel : Nat) (s : String)
    (hpat : keyPatternMatch s = true) (hlen : s.length ≤ 100) :
    validateProperty (fuel + 1) (.str s) keySchema "key" = [] := by
  have hne : s.toList ≠ [] := keyPatternMatch_ne_nil s hpat
  have hlen1 : 1 ≤ s.length := by
    show 1 ≤ s.toList.length
    cases hl : s.toList
    · exact absurd hl hne
    · simp
  have htc : typeCheckError (.str s) (some "string") "key" = none := rfl
  simp only [validateProperty, keySchema, strSchema, htc, stringErrors]
  rw [if_neg (by omega), if_neg (by omega), if_pos hpat]
  rfl

/-- A key failing the pattern, or longer than 100 characters, produces
at least one violation on the `key` property. -/
theorem validateProperty_key_err (fuel : Nat) (s : String)
    (hbad : keyPatternMatch s = false ∨ 100 < s.length) :
    ∃ msg, msg ∈ validateProperty (fuel + 1) (.str s) keySchema "key" := by
  have htc : typeCheckError (.str s) (some "string") "key" = none := rfl
  rcases hbad with h | h
  · refine ⟨"key format is invalid: Flag key must be lowercase alphanumeric with hyphens, no leading/trailing hyphens", ?_⟩
    simp only [validateProperty, keySchema, strSchema, htc, stringErrors, h]
    simp
  · refine ⟨"key must be no more than 100 characters long", ?_⟩
    simp only [validateProperty, keySchema, strSchema, htc, stringErrors]
    rw [if_pos (by omega : (100 : Nat) ≠ 0 ∧ s.length > 100)]
    simp
    exact Or.inr (Or.inl (by decide))

/-- Claim C7: a flag object whose `key` matches
`^[a-z0-9]([a-z0-9-]*[a-z0-9])?$` with length 1–100 contributes no key
violation, and when no violation at all is collected `validateFlagSchema`
succeeds and returns the input unchanged (no normalization or coercion);
conversely a flag object whose `key` contains an uppercase letter, an
underscore, a space, a leading or trailing hyphen, or has length 0 or
greater than 100, makes `validateFlagSchema` fail. -/
theorem validateFlagSchema_key_pattern (s : String) (data : Json)
    (entries : List (String × Json)) (fn : Option String) :
    (∀ fuel, keyPatternMatch s = true → s.length ≤ 100 →
      validateProperty (fuel + 1) (.str s) keySchema "key" = []) ∧
    (validateSchema data FLAG_SCHEMA = [] → validateFlagSchema data fn = .ok data) ∧
    (jsEntries data = some entries → ("key", .str s) ∈ entries →
      ((∃ c ∈ s.toList, c.isUpper = true) ∨ '_' ∈ s.toList ∨ ' ' ∈ s.toList ∨
        s.toList.head? = some '-' ∨ s.toList.getLast? = some '-' ∨
        s.length = 0 ∨ s.length > 100) →
      ∃ e, validateFlagSchema data fn = .error e) := by
  refine ⟨fun fuel h1 h2 => validateProperty_key_ok fuel s h1 h2,
    validateFlagSchema_ok data fn, ?_⟩
  intro hent hkv hbad
  have hlen : s.length = s.toList.length := rfl
  have hform : keyPatternMatch s = false ∨ 100 < s.length := by
    rcases hbad with h | h | h | h | h | h | h
    · exact Or.inl (keyPatternMatch_eq_false s (Or.inl h))
    · exact Or.inl (keyPatternMatch_eq_false s (Or.inr (Or.inl h)))
    · exact Or.inl (keyPatternMatch_eq_false s (Or.inr (Or.inr (Or.inl h))))
    · exact Or.inl (keyPatternMatch_eq_false s (Or.inr (Or.inr (Or.inr (Or.inl h)))))
    · exact Or.inl (keyPatternMatch_eq_false s (Or.inr (Or.inr (Or.inr (Or.inr (Or.inl h))))))
    · refine Or.inl (keyPatternMatch_eq_false s (Or.inr (Or.inr (Or.inr (Or.inr (Or.inr ?_))))))
      rw [hlen] at h
      exact List.length_eq_zero.mp h
    · exact Or.inr h
  obtain ⟨msg, hmsg⟩ := validateProperty_key_err 15 s hform
  have hmem : msg ∈ validateSchema data FLAG_SCHEMA :=
    mem_validateSchema_prop data entries "key" (.str s) keySchema msg hent hkv rfl hmsg
  obtain ⟨e, h1, _, _⟩ := validateFlagSchema_error_of_mem data fn msg hmem
  exact ⟨e, h1⟩

/-- Witness for C7: the valid flag of concrete scenario A passes and is
returned unchanged, and the flag of scenario B with key `UPPERCASE`
fails. -/
theorem validateFlagSchema_key_pattern_witness :
    (keyPatternMatch "dark-mode" = true ∧ "dark-mode".length ≤ 100 ∧
      validateProperty (15 + 1) (.str "dark-mode") keySchema "key" = []) ∧
    (validateSchema
        (.obj [("key", .str "dark-mode"), ("name", .str "Dark Mode Toggle"),
               ("active", .bool true)]) FLAG_SCHEMA = [] ∧
      validateFlagSchema
        (.obj [("key", .str "dark-mode"), ("name", .str "Dark Mode Toggle"),
               ("active", .bool true)]) none =
        .ok (.obj [("key", .str "dark-mode"), ("name", .str "Dark Mode Toggle"),
               ("active", .bool true)])) ∧
    (∃ e, validateFlagSchema
        (.obj [("key", .str "UPPERCASE"), ("name", .str "x"), ("active", .bool true)])
        none = .error e) :=
  ⟨⟨by decide, by decide,
    (validateFlagSchema_key_pattern "dark-mode" (.obj []) [] none).1 15
      (by decide) (by decide)⟩,
   ⟨by decide,
    (validateFlagSchema_key_pattern "dark-mode"
      (.obj [("key", .str "dark-mode"), ("name", .str "Dark Mode Toggle"),
             ("active", .bool true)]) [] none).2.1 (by decide)⟩,
   (validateFlagSchema_key_pattern "UPPERCASE"
      (.obj [("key", .str "UPPERCASE"), ("name", .str "x"), ("active", .bool true)])
      [("key", .str "UPPERCASE"), ("name", .str "x"), ("active", .bool true)] none).2.2
      rfl (List.mem_cons_self _ _) (Or.inl ⟨'U', by decide, by decide⟩)⟩

/-! ## Claim C8: unknown-property handling is asymmetric -/

/-- A strict-equality comparison against an object value is always
false (reference semantics). -/
theorem jsStrictEq_obj (v : Json) (fields : List (String × Json)) :
    jsStrictEq v (.obj fields) = false := by
  cases v <;> rfl

/-- Elements on which `f` is empty can be filtered out of a
`flatMap`. -/
theorem flatMap_eq_flatMap_filter {α β : Type} (f : α → List β) (p : α → Bool) (l : List α)
    (h : ∀ x ∈ l, p x = false → f x = []) :
    l.flatMap f = (l.filter p).flatMap f := by
  induction l with
  | nil => rfl
  | cons a t ih =>
    have iht := ih fun x hx hfx => h x (List.mem_cons_of_mem _ hx) hfx
    by_cases hp : p a = true
    · rw [List.flatMap_cons, List.filter_cons, hp, if_pos rfl, List.flatMap_cons, iht]
    · have hpf : p a = false := by simpa using hp
      have hf : f a = [] := h a (List.mem_cons_self _ _) hpf
      rw [List.flatMap_cons, List.filter_cons, hpf]
      simp only [Bool.false_eq_true, if_false, hf, List.nil_append, iht]

/-- The type check cannot distinguish two object values. -/
theorem typeCheckError_obj (t : Option String) (pn : String)
    (f1 f2 : List (String × Json)) :
    typeCheckError (.obj f1) t pn = typeCheckError (.obj f2) t pn := by
  rcases t with _ | ts
  · rfl
  · simp only [typeCheckError]

/-- Nested leniency: validating an object value consults only its
declared entries, so two objects with the same declared entries produce
the same violations — undeclared nested properties are ignored. -/
theorem validateProperty_declared_only (fuel : Nat) (schema : Schema) (pn : String)
    (f1 f2 : List (String × Json))
    (h : declaredEntries schema f1 = declaredEntries schema f2) :
    validateProperty fuel (.obj f1) schema pn = validateProperty fuel (.obj f2) schema pn := by
  cases fuel with
  | zero => rfl
  | succ fuel =>
    obtain ⟨t, req, minL, maxL, pat, desc, mi, ma, it, pr, en, oo, ap⟩ := schema
    have hstr : stringErrors (.obj f1) minL maxL pat desc pn =
        stringErrors (.obj f2) minL maxL pat desc pn := rfl
    have hnum : numberErrors (.obj f1) mi ma pn = numberErrors (.obj f2) mi ma pn := rfl
    have harr : arrayErrors (validateProperty fuel) (.obj f1) it pn =
        arrayErrors (validateProperty fuel) (.obj f2) it pn := by
      cases it <;> rfl
    have henum : enumCheckErrors (.obj f1) en pn = enumCheckErrors (.obj f2) en pn := by
      cases en with
      | none => rfl
      | some vals => simp only [enumCheckErrors, jsStrictEq_obj]
    have hobj : objectErrors (validateProperty fuel) (.obj f1) pr pn =
        objectErrors (validateProperty fuel) (.obj f2) pr pn := by
      cases pr with
      | none => rfl
      | some props =>
        simp only [objectErrors]
        have hvanish : ∀ g : List (String × Json),
            ∀ kv ∈ g, (fun kv : String × Json =>
                (lookupSchema props kv.1).isSome) kv = false →
              (fun kv : String × Json =>
                match jsSchemaLookup props kv.1 with
                | some propSchema =>
                  validateProperty fuel kv.2 propSchema (pn ++ "." ++ kv.1)
                | none => []) kv = [] := by
          intro g kv _ hfx
          beta_reduce at hfx ⊢
          cases hl : lookupSchema props kv.1 with
          | some ps => rw [hl] at hfx; simp at hfx
          | none =>
            have hj : jsSchemaLookup props kv.1 = none ∨
                jsSchemaLookup props kv.1 = some protoSchema := by
              simp only [jsSchemaLookup, hl]
              cases protoProps.contains kv.1
              · exact Or.inl rfl
              · exact Or.inr rfl
            rcases hj with hj | hj
            · rw [hj]
            · rw [hj]
              exact validateProperty_protoSchema fuel kv.2 _
        rw [flatMap_eq_flatMap_filter _ (fun kv => (lookupSchema props kv.1).isSome)
            f1 (hvanish f1),
          flatMap_eq_flatMap_filter _ (fun kv => (lookupSchema props kv.1).isSome)
            f2 (hvanish f2)]
        have hfilter : f1.filter (fun kv => (lookupSchema props kv.1).isSome) =
            f2.filter (fun kv => (lookupSchema props kv.1).isSome) := by
          simpa only [declaredEntries, propsOf, Option.getD_some] using h
        rw [hfilter]
    simp only [validateProperty]
    rw [typeCheckError_obj t pn f1 f2, hstr, hnum, harr, hobj, henum]

/-- Counterexample to C8: `"toString"` is not declared in the flag
schema's `properties`, yet the flag
`{key: "a", name: "x", active: true, toString: 5}` validates cleanly —
`schema.properties["toString"]` finds the member inherited from
`Object.prototype`, which is truthy, so the unknown-property branch is
skipped and the value is validated against the memberless inherited
function, yielding no violation. -/
theorem validateFlagSchema_unknown_props_cex :
    (lookupSchema flagProperties "toString").isNone = true ∧
    validateSchema (.obj [("key", .str "a"), ("name", .str "x"),
      ("active", .bool true), ("toString", .num 5)]) FLAG_SCHEMA = [] ∧
    errOfExcept (validateFlagSchema (.obj [("key", .str "a"), ("name", .str "x"),
      ("active", .bool true), ("toString", .num 5)]) none) = none :=
  ⟨by decide, by decide, by decide⟩

/-- Claim C8 as amended: a top-level property whose
`schema.properties` lookup is falsy — neither declared nor named after
an `Object.prototype` member — always produces an unknown-property
violation and makes validation fail; a top-level property named after an
inherited `Object.prototype` member is looked up to the truthy inherited
member and validates against it with no violation, so it is silently
accepted; nested object validation consults only entries whose lookup is
truthy, and entries with undeclared, non-inherited names are skipped, so
extra nested properties produce no violation; concretely, a flag with an
undeclared property inside `filters` and inside a group validates
cleanly. -/
theorem validateFlagSchema_unknown_props_asymmetry
    (data : Json) (entries : List (String × Json)) (k k2 : String) (v v2 : Json)
    (fn : Option String) (fuel : Nat) (schema : Schema) (pn pn2 : String)
    (f1 f2 : List (String × Json)) :
    (jsEntries data = some entries → (k, v) ∈ entries →
      jsSchemaLookup flagProperties k = none →
      ("Unknown property: " ++ k) ∈ validateSchema data FLAG_SCHEMA ∧
      ∃ e, validateFlagSchema data fn = .error e) ∧
    (lookupSchema flagProperties k2 = none → protoProps.contains k2 = true →
      jsSchemaLookup flagProperties k2 = some protoSchema ∧
      validateProperty fuel v2 protoSchema pn2 = []) ∧
    (declaredEntries schema f1 = declaredEntries schema f2 →
      validateProperty fuel (.obj f1) schema pn = validateProperty fuel (.obj f2) schema pn) ∧
    validateSchema
      (.obj [("key", .str "a"), ("name", .str "x"), ("active", .bool true),
        ("filters", .obj [("bogus", .num 1),
          ("groups", .arr [.obj [("rollout_percentage", .num 50),
            ("extra", .str "hi")]])])]) FLAG_SCHEMA = [] := by
  refine ⟨?_, ?_, validateProperty_declared_only fuel schema pn f1 f2, by decide⟩
  · intro hent hkv hlook
    have hmem := mem_validateSchema_unknown data entries k v hent hkv hlook
    obtain ⟨e, h1, _, _⟩ := validateFlagSchema_error_of_mem data fn _ hmem
    exact ⟨hmem, e, h1⟩
  · intro hlook hproto
    refine ⟨?_, validateProperty_protoSchema fuel v2 pn2⟩
    simp [jsSchemaLookup, hlook, hproto]
    exact List.elem_iff.mp hproto

/-- Witness for C8 at a flag object carrying the undeclared top-level
property `bogus`, the prototype-inherited name `toString`, and two group
objects differing only in an undeclared nested property. -/
theorem validateFlagSchema_unknown_props_asymmetry_witness :
    jsEntries (Json.obj [("bogus", .num 1)]) = some [("bogus", .num 1)] ∧
    jsSchemaLookup flagProperties "bogus" = none ∧
    lookupSchema flagProperties "toString" = none ∧
    protoProps.contains "toString" = true ∧
    declaredEntries groupItemSchema
        [("rollout_percentage", .num 50), ("extra", .str "hi")] =
      declaredEntries groupItemSchema [("rollout_percentage", .num 50)] ∧
    (("Unknown property: bogus") ∈ validateSchema (.obj [("bogus", .num 1)]) FLAG_SCHEMA ∧
      ∃ e, validateFlagSchema (.obj [("bogus", .num 1)]) none = .error e) ∧
    (jsSchemaLookup flagProperties "toString" = some protoSchema ∧
      validateProperty schemaFuel (.num 5) protoSchema "toString" = []) ∧
    validateProperty schemaFuel
        (.obj [("rollout_percentage", .num 50), ("extra", .str "hi")])
        groupItemSchema "filters.groups[0]" =
      validateProperty schemaFuel
        (.obj [("rollout_percentage", .num 50)]) groupItemSchema "filters.groups[0]" := by
  have h := validateFlagSchema_unknown_props_asymmetry
    (.obj [("bogus", .num 1)]) [("bogus", .num 1)] "bogus" "toString" (.num 1) (.num 5) none
    schemaFuel groupItemSchema "filters.groups[0]" "toString"
    [("rollout_percentage", .num 50), ("extra", .str "hi")]
    [("rollout_percentage", .num 50)]
  exact ⟨rfl, rfl, rfl, by decide, rfl, h.1 rfl (List.mem_cons_self _ _) rfl,
    h.2.1 rfl (by decide), h.2.2.1 rfl⟩

/-! ## Claim C9: rollout percentages and violation paths -/

/-- A violation of a declared entry of an object value is collected by
the object check of `validateProperty`. -/
theorem mem_validateProperty_obj (fuel : Nat) (fields : List (String × Json))
    (req : List String) (props : List (String × Schema)) (k : String) (v : Json)
    (ps : Schema) (pn msg : String)
    (hkv : (k, v) ∈ fields) (hlook : jsSchemaLookup props k = some ps)
    (hmsg : msg ∈ validateProperty fuel v ps (pn ++ "." ++ k)) :
    msg ∈ validateProperty (fuel + 1) (.obj fields) (objSchema req (some props)) pn := by
  show msg ∈ [] ++ [] ++ [] ++
    (fields.flatMap fun kv =>
      match jsSchemaLookup props kv.1 with
      | some propSchema => validateProperty fuel kv.2 propSchema (pn ++ "." ++ kv.1)
      | none => []) ++ []
  refine List.mem_append.mpr (Or.inl (List.mem_append.mpr (Or.inr ?_)))
  refine List.mem_flatMap.mpr ⟨(k, v), hkv, ?_⟩
  simp only [hlook]
  exact hmsg

/-- A violation of an element of an array value is collected by the
array check of `validateProperty`, with the index in the path. -/
theorem mem_validateProperty_arr (fuel : Nat) (elems : List Json) (item : Schema)
    (i : Nat) (x : Json) (pn msg : String)
    (hi : elems.get? i = some x)
    (hmsg : msg ∈ validateProperty fuel x item (pn ++ "[" ++ toString i ++ "]")) :
    msg ∈ validateProperty (fuel + 1) (.arr elems) (arrSchema item) pn := by
  show msg ∈ [] ++ [] ++
    ((enumFrom 0 elems).flatMap fun p =>
      validateProperty fuel p.2 item (pn ++ "[" ++ toString p.1 ++ "]")) ++ [] ++ []
  refine List.mem_append.mpr (Or.inl (List.mem_append.mpr (Or.inl
    (List.mem_append.mpr (Or.inr ?_)))))
  refine List.mem_flatMap.mpr ⟨(i, x), ?_, hmsg⟩
  have hm := mem_enumFrom elems 0 i x hi
  simpa using hm

/-- A `rollout_percentage` outside the inclusive range [0, 100]
produces its range violation. -/
theorem mem_validateProperty_rollout (fuel : Nat) (r : Rat) (pn : String)
    (h : r < 0 ∨ r > 100) :
    (pn ++ " must be at least 0") ∈
      validateProperty (fuel + 1) (.num r) (numSchema (some 0) (some 100)) pn ∨
    (pn ++ " must be no more than 100") ∈
      validateProperty (fuel + 1) (.num r) (numSchema (some 0) (some 100)) pn := by
  have hred : validateProperty (fuel + 1) (.num r) (numSchema (some 0) (some 100)) pn =
      [] ++ ((if r < 0 then [pn ++ " must be at least " ++ jsNumToString 0] else []) ++
        (if r > 100 then [pn ++ " must be no more than " ++ jsNumToString 100] else [])) ++
      [] ++ [] ++ [] := rfl
  have hlo : pn ++ " must be at least " ++ jsNumToString 0 = pn ++ " must be at least 0" := by
    rw [String.append_assoc]
    exact congrArg (fun t => pn ++ t) (by decide)
  have hhi : pn ++ " must be no more than " ++ jsNumToString 100 =
      pn ++ " must be no more than 100" := by
    rw [String.append_assoc]
    exact congrArg (fun t => pn ++ t) (by decide)
  rcases h with h | h
  · left
    rw [hred, if_pos h, hlo]
    simp
  · right
    rw [hred, if_pos h, hhi]
    simp

/-- Counterexample to C9: a `rollout_percentage` of 150 nested inside
`filters.payloads` — a location at which the flag schema declares no
properties — produces no violation at all, and the whole flag validates
cleanly, so an out-of-range `rollout_percentage` "anywhere in its
nesting" does not make `validateFlagSchema` fail. -/
theorem validateFlagSchema_rollout_path_cex :
    (150 : Rat) > 100 ∧
    validateSchema
      (.obj [("key", .str "a"), ("name", .str "Test"), ("active", .bool true),
        ("filters", .obj [("payloads", .obj [("rollout_percentage", .num 150)])])])
      FLAG_SCHEMA = [] ∧
    errOfExcept (validateFlagSchema
      (.obj [("key", .str "a"), ("name", .str "Test"), ("active", .bool true),
        ("filters", .obj [("payloads", .obj [("rollout_percentage", .num 150)])])])
      none) = none :=
  ⟨by norm_num, by decide, by decide⟩

/-- Claim C9 as amended: a flag object carrying a `rollout_percentage`
outside [0, 100] at any of the locations the flag schema declares for it
— inside a `filters.groups` element, inside a
`filters.multivariate.variants` element, or inside a top-level
`variants` element — makes `validateFlagSchema` fail with a violation
whose path names the exact nested location, array indices in brackets
and object properties joined by dots; at a nesting spot with no declared
properties (such as inside `filters.payloads`) no violation arises;
concretely, scenario E throws with the single violation path
`filters.groups[0].rollout_percentage`. -/
theorem validateFlagSchema_rollout_path (data : Json) (fn : Option String) :
    (∀ (entries ff gf : List (String × Json)) (gs : List Json) (i : Nat) (r : Rat),
      jsEntries data = some entries →
      ("filters", Json.obj ff) ∈ entries → ("groups", Json.arr gs) ∈ ff →
      gs.get? i = some (.obj gf) → ("rollout_percentage", Json.num r) ∈ gf →
      (r < 0 ∨ r > 100) →
      ∃ e, validateFlagSchema data fn = .error e ∧
        (("filters.groups[" ++ toString i ++ "].rollout_percentage must be at least 0")
            ∈ e.validationErrors ∨
         ("filters.groups[" ++ toString i ++
            "].rollout_percentage must be no more than 100") ∈ e.validationErrors)) ∧
    (∀ (entries ff mf vf : List (String × Json)) (vs : List Json) (i : Nat) (r : Rat),
      jsEntries data = some entries →
      ("filters", Json.obj ff) ∈ entries → ("multivariate", Json.obj mf) ∈ ff →
      ("variants", Json.arr vs) ∈ mf → vs.get? i = some (.obj vf) →
      ("rollout_percentage", Json.num r) ∈ vf → (r < 0 ∨ r > 100) →
      ∃ e, validateFlagSchema data fn = .error e ∧
        (("filters.multivariate.variants[" ++ toString i ++
            "].rollout_percentage must be at least 0") ∈ e.validationErrors ∨
         ("filters.multivariate.variants[" ++ toString i ++
            "].rollout_percentage must be no more than 100") ∈ e.validationErrors)) ∧
    (∀ (entries vf : List (String × Json)) (vs : List Json) (i : Nat) (r : Rat),
      jsEntries data = some entries →
      ("variants", Json.arr vs) ∈ entries → vs.get? i = some (.obj vf) →
      ("rollout_percentage", Json.num r) ∈ vf → (r < 0 ∨ r > 100) →
      ∃ e, validateFlagSchema data fn = .error e ∧
        (("variants[" ++ toString i ++ "].rollout_percentage must be at least 0")
            ∈ e.validationErrors ∨
         ("variants[" ++ toString i ++ "].rollout_percentage must be no more than 100")
            ∈ e.validationErrors)) ∧
    errOfExcept (validateFlagSchema
      (.obj [("key", .str "a"), ("name", .str "Test"), ("active", .bool true),
        ("filters", .obj [("groups", .arr [.obj [("rollout_percentage", .num 150)]])])])
      none) =
      some ⟨"Feature flag validation failed",
        ["filters.groups[0].rollout_percentage must be no more than 100"], []⟩ := by
  refine ⟨?_, ?_, ?_, by decide⟩
  · intro entries ff gf gs i r hent hf hg hi hr hout
    have hcanonLo :
        ((("filters.groups[" ++ toString i ++ "]") ++ "." ++ "rollout_percentage") ++
          " must be at least 0") =
        "filters.groups[" ++ toString i ++ "].rollout_percentage must be at least 0" := by
      simp only [String.append_assoc]
      rfl
    have hcanonHi :
        ((("filters.groups[" ++ toString i ++ "]") ++ "." ++ "rollout_percentage") ++
          " must be no more than 100") =
        "filters.groups[" ++ toString i ++
          "].rollout_percentage must be no more than 100" := by
      simp only [String.append_assoc]
      rfl
    have h13 := mem_validateProperty_rollout 12 r
      (("filters.groups[" ++ toString i ++ "]") ++ "." ++ "rollout_percentage") hout
    have hstep : ∃ msg, (msg = "filters.groups[" ++ toString i ++
          "].rollout_percentage must be at least 0" ∨
        msg = "filters.groups[" ++ toString i ++
          "].rollout_percentage must be no more than 100") ∧
        msg ∈ validateProperty 13 (.num r) (numSchema (some 0) (some 100))
          (("filters.groups[" ++ toString i ++ "]") ++ "." ++ "rollout_percentage") := by
      rcases h13 with h | h
      · exact ⟨_, Or.inl hcanonLo, h⟩
      · exact ⟨_, Or.inr hcanonHi, h⟩
    obtain ⟨msg, hmsgeq, hmem13⟩ := hstep
    have hmem14 : msg ∈ validateProperty 14 (.obj gf) groupItemSchema
        ("filters.groups[" ++ toString i ++ "]") :=
      mem_validateProperty_obj 13 gf []
        [("properties", arrSchema propItemSchema),
         ("rollout_percentage", numSchema (some 0) (some 100)),
         ("variant", strSchema none none none none)]
        "rollout_percentage" (.num r) (numSchema (some 0) (some 100))
        ("filters.groups[" ++ toString i ++ "]") msg hr rfl hmem13
    have hmem15 : msg ∈ validateProperty 15 (.arr gs) (arrSchema groupItemSchema)
        "filters.groups" :=
      mem_validateProperty_arr 14 gs groupItemSchema i (.obj gf) "filters.groups" msg hi hmem14
    have hmem16 : msg ∈ validateProperty 16 (.obj ff) filtersSchema "filters" :=
      mem_validateProperty_obj 15 ff []
        [("groups", arrSchema groupItemSchema),
         ("multivariate", objSchema [] (some
           [("variants", arrSchema variantItemSchema)])),
         ("payloads", objSchema [] none)]
        "groups" (.arr gs) (arrSchema groupItemSchema) "filters" msg hg rfl hmem15
    have hmem : msg ∈ validateSchema data FLAG_SCHEMA :=
      mem_validateSchema_prop data entries "filters" (.obj ff) filtersSchema msg
        hent hf rfl hmem16
    obtain ⟨e, he1, _, he3⟩ := validateFlagSchema_error_of_mem data fn msg hmem
    refine ⟨e, he1, ?_⟩
    rcases hmsgeq with rfl | rfl
    · exact Or.inl he3
    · exact Or.inr he3
  · intro entries ff mf vf vs i r hent hf hm hv hi hr hout
    have hcanonLo :
        ((("filters.multivariate.variants[" ++ toString i ++ "]") ++ "." ++
            "rollout_percentage") ++ " must be at least 0") =
        "filters.multivariate.variants[" ++ toString i ++
          "].rollout_percentage must be at least 0" := by
      simp only [String.append_assoc]
      rfl
    have hcanonHi :
        ((("filters.multivariate.variants[" ++ toString i ++ "]") ++ "." ++
            "rollout_percentage") ++ " must be no more than 100") =
        "filters.multivariate.variants[" ++ toString i ++
          "].rollout_percentage must be no more than 100" := by
      simp only [String.append_assoc]
      rfl
    have h12 := mem_validateProperty_rollout 11 r
      (("filters.multivariate.variants[" ++ toString i ++ "]") ++ "." ++
        "rollout_percentage") hout
    have hstep : ∃ msg, (msg = "filters.multivariate.variants[" ++ toString i ++
          "].rollout_percentage must be at least 0" ∨
        msg = "filters.multivariate.variants[" ++ toString i ++
          "].rollout_percentage must be no more than 100") ∧
        msg ∈ validateProperty 12 (.num r) (numSchema (some 0) (some 100))
          (("filters.multivariate.variants[" ++ toString i ++ "]") ++ "." ++
            "rollout_percentage") := by
      rcases h12 with h | h
      · exact ⟨_, Or.inl hcanonLo, h⟩
      · exact ⟨_, Or.inr hcanonHi, h⟩
    obtain ⟨msg, hmsgeq, hmem12⟩ := hstep
    have hmem13 : msg ∈ validateProperty 13 (.obj vf) variantItemSchema
        ("filters.multivariate.variants[" ++ toString i ++ "]") :=
      mem_validateProperty_obj 12 vf ["key", "rollout_percentage"]
        [("key", strSchema (some 1) none none none),
         ("name", strSchema none none none none),
         ("rollout_percentage", numSchema (some 0) (some 100))]
        "rollout_percentage" (.num r) (numSchema (some 0) (some 100))
        ("filters.multivariate.variants[" ++ toString i ++ "]") msg hr rfl hmem12
    have hmem14 : msg ∈ validateProperty 14 (.arr vs) (arrSchema variantItemSchema)
        "filters.multivariate.variants" :=
      mem_validateProperty_arr 13 vs variantItemSchema i (.obj vf)
        "filters.multivariate.variants" msg hi hmem13
    have hmem15 : msg ∈ validateProperty 15 (.obj mf)
        (objSchema [] (some [("variants", arrSchema variantItemSchema)]))
        "filters.multivariate" :=
      mem_validateProperty_obj 14 mf [] [("variants", arrSchema variantItemSchema)]
        "variants" (.arr vs) (arrSchema variantItemSchema) "filters.multivariate"
        msg hv rfl hmem14
    have hmem16 : msg ∈ validateProperty 16 (.obj ff) filtersSchema "filters" :=
      mem_validateProperty_obj 15 ff []
        [("groups", arrSchema groupItemSchema),
         ("multivariate", objSchema [] (some
           [("variants", arrSchema variantItemSchema)])),
         ("payloads", objSchema [] none)]
        "multivariate" (.obj mf)
        (objSchema [] (some [("variants", arrSchema variantItemSchema)]))
        "filters" msg hm rfl hmem15
    have hmem : msg ∈ validateSchema data FLAG_SCHEMA :=
      mem_validateSchema_prop data entries "filters" (.obj ff) filtersSchema msg
        hent hf rfl hmem16
    obtain ⟨e, he1, _, he3⟩ := validateFlagSchema_error_of_mem data fn msg hmem
    refine ⟨e, he1, ?_⟩
    rcases hmsgeq with rfl | rfl
    · exact Or.inl he3
    · exact Or.inr he3
  · intro entries vf vs i r hent hv hi hr hout
    have hcanonLo :
        ((("variants[" ++ toString i ++ "]") ++ "." ++ "rollout_percentage") ++
          " must be at least 0") =
        "variants[" ++ toString i ++ "].rollout_percentage must be at least 0" := by
      simp only [String.append_assoc]
      rfl
    have hcanonHi :
        ((("variants[" ++ toString i ++ "]") ++ "." ++ "rollout_percentage") ++
          " must be no more than 100") =
        "variants[" ++ toString i ++ "].rollout_percentage must be no more than 100" := by
      simp only [String.append_assoc]
      rfl
    have h14 := mem_validateProperty_rollout 13 r
      (("variants[" ++ toString i ++ "]") ++ "." ++ "rollout_percentage") hout
    have hstep : ∃ msg, (msg = "variants[" ++ toString i ++
          "].rollout_percentage must be at least 0" ∨
        msg = "variants[" ++ toString i ++
          "].rollout_percentage must be no more than 100") ∧
        msg ∈ validateProperty 14 (.num r) (numSchema (some 0) (some 100))
          (("variants[" ++ toString i ++ "]") ++ "." ++ "rollout_percentage") := by
      rcases h14 with h | h
      · exact ⟨_, Or.inl hcanonLo, h⟩
      · exact ⟨_, Or.inr hcanonHi, h⟩
    obtain ⟨msg, hmsgeq, hmem14⟩ := hstep
    have hmem15 : msg ∈ validateProperty 15 (.obj vf) variantItemSchema
        ("variants[" ++ toString i ++ "]") :=
      mem_validateProperty_obj 14 vf ["key", "rollout_percentage"]
        [("key", strSchema (some 1) none none none),
         ("name", strSchema none none none none),
         ("rollout_percentage", numSchema (some 0) (some 100))]
        "rollout_percentage" (.num r) (numSchema (some 0) (some 100))
        ("variants[" ++ toString i ++ "]") msg hr rfl hmem14
    have hmem16 : msg ∈ validateProperty 16 (.arr vs) (arrSchema variantItemSchema)
        "variants" :=
      mem_validateProperty_arr 15 vs variantItemSchema i (.obj vf) "variants" msg hi hmem15
    have hmem : msg ∈ validateSchema data FLAG_SCHEMA :=
      mem_validateSchema_prop data entries "variants" (.arr vs)
        (arrSchema variantItemSchema) msg hent hv rfl hmem16
    obtain ⟨e, he1, _, he3⟩ := validateFlagSchema_error_of_mem data fn msg hmem
    refine ⟨e, he1, ?_⟩
    rcases hmsgeq with rfl | rfl
    · exact Or.inl he3
    · exact Or.inr he3

/-- Witness for C9 at the flag object of scenario E, through the
`filters.groups` family of the theorem. -/
theorem validateFlagSchema_rollout_path_witness :
    (150 : Rat) > 100 ∧
    (∃ e, validateFlagSchema
        (.obj [("key", .str "a"), ("name", .str "Test"), ("active", .bool true),
          ("filters", .obj [("groups", .arr [.obj [("rollout_percentage", .num 150)]])])])
        none = .error e ∧
      (("filters.groups[" ++ toString (0 : Nat) ++
          "].rollout_percentage must be at least 0") ∈ e.validationErrors ∨
       ("filters.groups[" ++ toString (0 : Nat) ++
          "].rollout_percentage must be no more than 100") ∈ e.validationErrors)) := by
  have h := (validateFlagSchema_rollout_path
    (.obj [("key", .str "a"), ("name", .str "Test"), ("active", .bool true),
      ("filters", .obj [("groups", .arr [.obj [("rollout_percentage", .num 150)]])])])
    none).1
    [("key", .str "a"), ("name", .str "Test"), ("active", .bool true),
      ("filters", .obj [("groups", .arr [.obj [("rollout_percentage", .num 150)]])])]
    [("groups", .arr [.obj [("rollout_percentage", .num 150)]])]
    [("rollout_percentage", .num 150)]
    [.obj [("rollout_percentage", .num 150)]]
    0 150 rfl
    (List.Mem.tail _ (List.Mem.tail _ (List.Mem.tail _ (List.Mem.head _))))
    (List.Mem.head _) rfl (List.Mem.head _) (Or.inr (by norm_num))
  exact ⟨by norm_num, h⟩

/-! ## Lemmas about splitting and joining path segments -/

theorem splitOnChar_ne_nil (c : Char) (l : List Char) : splitOnChar c l ≠ [] := by
  induction l with
  | nil => simp [splitOnChar]
  | cons a t ih =>
    simp only [splitOnChar]
    by_cases hac : a = c
    · simp [hac]
    · simp only [if_neg hac]
      cases hr : splitOnChar c t with
      | nil => exact absurd hr ih
      | cons h tl => simp

theorem splitOnChar_cons_sep (c : Char) (l : List Char) :
    splitOnChar c (c :: l) = [] :: splitOnChar c l := by
  simp [splitOnChar]

theorem splitOnChar_cons_nosep (c a : Char) (l : List Char) (h : a ≠ c)
    (hd : List Char) (tl : List (List Char)) (hsplit : splitOnChar c l = hd :: tl) :
    splitOnChar c (a :: l) = (a :: hd) :: tl := by
  simp only [splitOnChar, if_neg h, hsplit]

theorem splitOnChar_append_sep (c : Char) (l1 l2 : List Char) :
    splitOnChar c (l1 ++ c :: l2) = splitOnChar c l1 ++ splitOnChar c l2 := by
  induction l1 with
  | nil => rw [List.nil_append, splitOnChar_cons_sep]; rfl
  | cons a t ih =>
    obtain ⟨x, xs, hx⟩ := List.exists_cons_of_ne_nil (splitOnChar_ne_nil c t)
    by_cases hac : a = c
    · subst hac
      rw [List.cons_append, splitOnChar_cons_sep, splitOnChar_cons_sep, ih, List.cons_append]
    · rw [List.cons_append,
        splitOnChar_cons_nosep c a (t ++ c :: l2) hac x (xs ++ splitOnChar c l2)
          (by rw [ih, hx]; rfl),
        splitOnChar_cons_nosep c a t hac x xs hx]
      rfl

theorem splitOnChar_of_not_mem (c : Char) (l : List Char) (h : c ∉ l) :
    splitOnChar c l = [l] := by
  induction l with
  | nil => rfl
  | cons a t ih =>
    have hac : a ≠ c := fun hh => h (hh ▸ List.mem_cons_self a t)
    have ht := ih fun hh => h (List.mem_cons_of_mem a hh)
    exact splitOnChar_cons_nosep c a t hac t [] ht

theorem mem_of_mem_splitOnChar (c : Char) (l : List Char) (p : List Char)
    (hp : p ∈ splitOnChar c l) : ∀ x ∈ p, x ∈ l := by
  induction l generalizing p with
  | nil =>
    intro x hx
    simp only [splitOnChar, List.mem_singleton] at hp
    subst hp
    simp at hx
  | cons a t ih =>
    intro x hx
    by_cases hac : a = c
    · subst hac
      rw [splitOnChar_cons_sep] at hp
      rcases List.mem_cons.mp hp with rfl | hp2
      · simp at hx
      · exact List.mem_cons_of_mem _ (ih p hp2 x hx)
    · obtain ⟨hd, tl, hsplit⟩ := List.exists_cons_of_ne_nil (splitOnChar_ne_nil c t)
      rw [splitOnChar_cons_nosep c a t hac hd tl hsplit] at hp
      rcases List.mem_cons.mp hp with rfl | hp2
      · rcases List.mem_cons.mp hx with rfl | hx2
        · exact List.mem_cons_self _ _
        · exact List.mem_cons_of_mem _ (ih hd (hsplit ▸ List.mem_cons_self _ _) x hx2)
      · exact List.mem_cons_of_mem _
          (ih p (hsplit ▸ List.mem_cons_of_mem _ hp2) x hx)

theorem sep_not_mem_of_mem_splitOnChar (c : Char) (l : List Char) (p : List Char)
    (hp : p ∈ splitOnChar c l) : c ∉ p := by
  induction l generalizing p with
  | nil =>
    simp only [splitOnChar, List.mem_singleton] at hp
    subst hp
    simp
  | cons a t ih =>
    by_cases hac : a = c
    · subst hac
      rw [splitOnChar_cons_sep] at hp
      rcases List.mem_cons.mp hp with rfl | hp2
      · simp
      · exact ih p hp2
    · obtain ⟨hd, tl, hsplit⟩ := List.exists_cons_of_ne_nil (splitOnChar_ne_nil c t)
      rw [splitOnChar_cons_nosep c a t hac hd tl hsplit] at hp
      rcases List.mem_cons.mp hp with rfl | hp2
      · intro hmem
        rcases List.mem_cons.mp hmem with rfl | hmem2
        · exact hac rfl
        · exact ih hd (hsplit ▸ List.mem_cons_self _ _) hmem2
      · exact ih p (hsplit ▸ List.mem_cons_of_mem _ hp2)

theorem toList_append (a b : String) : (a ++ b).toList = a.toList ++ b.toList :=
  String.data_append a b

theorem joinSegs_toList_cons (x : String) (xs : List String) (h : xs ≠ []) :
    (joinSegs (x :: xs)).toList = x.toList ++ '/' :: (joinSegs xs).toList := by
  cases xs with
  | nil => exact absurd rfl h
  | cons y ys =>
    show ((x ++ "/") ++ joinSegs (y :: ys)).toList = _
    rw [toList_append, toList_append]
    simp

theorem joinSegs_toList_ne_nil (l : List String) (hne : l ≠ [])
    (hok : ∀ t ∈ l, t ≠ "") : (joinSegs l).toList ≠ [] := by
  cases l with
  | nil => exact absurd rfl hne
  | cons x xs =>
    cases xs with
    | nil =>
      show x.toList ≠ []
      intro hx
      exact hok x (List.mem_cons_self _ _) (by cases x with | mk d => cases d with
        | nil => rfl
        | cons c cs => simp at hx)
    | cons y ys =>
      rw [joinSegs_toList_cons x (y :: ys) (by simp)]
      intro hx
      cases hl : x.toList with
      | nil =>
        rw [hl] at hx
        simp at hx
      | cons c cs =>
        rw [hl] at hx
        simp at hx

theorem mem_joinSegs_toList (l : List String) (c : Char)
    (hc : c ∈ (joinSegs l).toList) : c = '/' ∨ ∃ t ∈ l, c ∈ t.toList := by
  induction l with
  | nil => simp [joinSegs] at hc
  | cons x xs ih =>
    cases xs with
    | nil =>
      right
      exact ⟨x, List.mem_cons_self _ _, hc⟩
    | cons y ys =>
      rw [joinSegs_toList_cons x (y :: ys) (by simp)] at hc
      rcases List.mem_append.mp hc with h | h
      · exact Or.inr ⟨x, List.mem_cons_self _ _, h⟩
      · rcases List.mem_cons.mp h with rfl | h2
        · exact Or.inl rfl
        · rcases ih h2 with h3 | ⟨t, ht, hct⟩
          · exact Or.inl h3
          · exact Or.inr ⟨t, List.mem_cons_of_mem _ ht, hct⟩

theorem splitOnChar_joinSegs (l : List String) (hok : ∀ t ∈ l, segOk t) (hne : l ≠ []) :
    splitOnChar '/' (joinSegs l).toList = l.map String.toList := by
  induction l with
  | nil => exact absurd rfl hne
  | cons x xs ih =>
    have hx := hok x (List.mem_cons_self _ _)
    cases xs with
    | nil =>
      show splitOnChar '/' x.toList = [x.toList]
      exact splitOnChar_of_not_mem '/' x.toList hx.2.2
    | cons y ys =>
      rw [joinSegs_toList_cons x (y :: ys) (by simp),
        splitOnChar_append_sep '/' x.toList (joinSegs (y :: ys)).toList,
        splitOnChar_of_not_mem '/' x.toList hx.2.2,
        ih (fun t ht => hok t (List.mem_cons_of_mem _ ht)) (by simp)]
      rfl

theorem cleanSegs_ok (l : List String) (hok : ∀ t ∈ l, segOk t) :
    cleanSegs l = l := by
  induction l with
  | nil => rfl
  | cons x xs ih =>
    have hx := hok x (List.mem_cons_self _ _)
    have hxs := ih fun t ht => hok t (List.mem_cons_of_mem _ ht)
    simp only [cleanSegs, List.filter_cons] at *
    rw [if_pos (by simp [hx.1, hx.2.1]), hxs]

/-! ## Lemmas about segment normalization -/

theorem normStep_skip (b : Bool) (stack : List String) (a : String)
    (h : a = "" ∨ a = ".") : normStep b stack a = stack := by
  unfold normStep
  rw [if_pos h]

theorem normStep_dd_nil (b : Bool) :
    normStep b [] ".." = if b then [".."] else [] := by
  unfold normStep
  rw [if_neg (by decide), if_pos rfl]

theorem normStep_dd_pop (b : Bool) (top : String) (restS : List String)
    (h : top ≠ "..") : normStep b (top :: restS) ".." = restS := by
  unfold normStep
  rw [if_neg (by decide), if_pos rfl]
  show (if top = ".." then (if b then ".." :: top :: restS else top :: restS)
    else restS) = restS
  rw [if_neg h]

theorem normStep_dd_dd (b : Bool) (restS : List String) :
    normStep b (".." :: restS) ".." =
      if b then ".." :: ".." :: restS else ".." :: restS := by
  unfold normStep
  rw [if_neg (by decide), if_pos rfl]
  show (if (".." : String) = ".." then (if b then ".." :: ".." :: restS
    else ".." :: restS) else restS) = _
  rw [if_pos rfl]

theorem normStep_push (b : Bool) (stack : List String) (a : String)
    (h1 : ¬(a = "" ∨ a = ".")) (h2 : a ≠ "..") : normStep b stack a = a :: stack := by
  unfold normStep
  rw [if_neg h1, if_neg h2]

theorem mem_foldl_normStep (b : Bool) (l : List String) (stack : List String) (t : String)
    (ht : t ∈ l.foldl (normStep b) stack) :
    t ∈ stack ∨ (t = ".." ∧ b = true) ∨ (t ∈ l ∧ t ≠ "" ∧ t ≠ "." ∧ t ≠ "..") := by
  induction l generalizing stack with
  | nil => exact Or.inl ht
  | cons a rest ih =>
    rw [List.foldl_cons] at ht
    rcases ih (normStep b stack a) ht with h | h | h
    · by_cases h1 : a = "" ∨ a = "."
      · rw [normStep_skip b stack a h1] at h
        exact Or.inl h
      · by_cases h2 : a = ".."
        · subst h2
          cases stack with
          | nil =>
            rw [normStep_dd_nil b] at h
            cases hb : b
            · rw [hb] at h
              simp at h
            · rw [hb] at h
              simp at h
              exact Or.inr (Or.inl ⟨h, rfl⟩)
          | cons top restS =>
            by_cases h3 : top = ".."
            · subst h3
              rw [normStep_dd_dd b restS] at h
              cases hb : b
              · rw [hb] at h
                simp at h
                rcases h with rfl | h4
                · exact Or.inl (List.mem_cons_self _ _)
                · exact Or.inl (List.mem_cons_of_mem _ h4)
              · rw [hb] at h
                simp at h
                rcases h with rfl | h4
                · exact Or.inr (Or.inl ⟨rfl, rfl⟩)
                · exact Or.inl (List.mem_cons_of_mem _ h4)
            · rw [normStep_dd_pop b top restS h3] at h
              exact Or.inl (List.mem_cons_of_mem _ h)
        · rw [normStep_push b stack a h1 h2] at h
          rcases List.mem_cons.mp h with rfl | h4
          · push_neg at h1
            exact Or.inr (Or.inr ⟨List.mem_cons_self _ _, h1.1, h1.2, h2⟩)
          · exact Or.inl h4
    · exact Or.inr (Or.inl h)
    · exact Or.inr (Or.inr ⟨List.mem_cons_of_mem _ h.1, h.2⟩)

theorem cleanSegs_cons_drop (a : String) (rest : List String) (h : a = "" ∨ a = ".") :
    cleanSegs (a :: rest) = cleanSegs rest := by
  simp only [cleanSegs, List.filter_cons]
  rw [if_neg]
  simp only [decide_eq_true_eq, not_and]
  intro ha
  rcases h with h | h
  · exact absurd h ha
  · intro hd
    exact hd h

theorem cleanSegs_cons_keep (a : String) (rest : List String)
    (h : ¬(a = "" ∨ a = ".")) : cleanSegs (a :: rest) = a :: cleanSegs rest := by
  push_neg at h
  simp only [cleanSegs, List.filter_cons]
  rw [if_pos]
  simp [h.1, h.2]

theorem foldl_normStep_push (l : List String) (stack : List String)
    (h : ∀ t ∈ l, t ≠ "..") :
    l.foldl (normStep false) stack = ((cleanSegs l).reverse ++ stack : List String) := by
  induction l generalizing stack with
  | nil => rfl
  | cons a rest ih =>
    rw [List.foldl_cons]
    by_cases h1 : a = "" ∨ a = "."
    · rw [normStep_skip false stack a h1]
      rw [ih stack fun t ht => h t (List.mem_cons_of_mem _ ht)]
      rw [cleanSegs_cons_drop a rest h1]
    · have h2 : a ≠ ".." := h a (List.mem_cons_self _ _)
      rw [normStep_push false stack a h1 h2]
      rw [ih (a :: stack) fun t ht => h t (List.mem_cons_of_mem _ ht)]
      rw [cleanSegs_cons_keep a rest h1]
      simp

theorem normSegs_of_ok (l : List String) (hok : ∀ t ∈ l, segOk t)
    (hnodd : ∀ t ∈ l, t ≠ "..") : normSegs false l = l := by
  unfold normSegs
  rw [foldl_normStep_push l [] hnodd, cleanSegs_ok l hok]
  simp

theorem pathSegs_slash_join (l : List String) (hok : ∀ t ∈ l, segOk t) :
    pathSegs ("/" ++ joinSegs l) = l := by
  unfold pathSegs rawPieces
  rw [show ("/" ++ joinSegs l).toList = '/' :: (joinSegs l).toList from by
    rw [toList_append]; rfl]
  rw [splitOnChar_cons_sep]
  cases hl : l with
  | nil => rfl
  | cons x xs =>
    rw [← hl, splitOnChar_joinSegs l hok (by rw [hl]; simp)]
    simp only [List.map_cons, List.map_map]
    have hmap : l.map ((fun d => String.mk d) ∘ String.toList) = l := by
      have hid : ((fun d => String.mk d) ∘ String.toList) = id := funext fun t => rfl
      rw [hid, List.map_id]
    rw [hmap]
    rw [List.filter_cons]
    rw [if_neg (by simp)]
    refine List.filter_eq_self.mpr ?_
    intro t ht
    simpa using (hok t ht).1

/-! ## Lemmas about `resolveGo` and `resolvePath` -/

theorem strStartsWith_slash_append (y : String) :
    strStartsWith ("/" ++ y) "/" = true := by
  unfold strStartsWith
  rw [toList_append]
  show (['/'] : List Char).isPrefixOf ('/' :: y.toList) = true
  simp [List.isPrefixOf]

theorem slash_append_ne_empty (y : String) : ("/" ++ y) ≠ "" := by
  intro h
  have h2 : ("/" ++ y).toList = [] := by rw [h]; rfl
  rw [toList_append] at h2
  simp at h2

theorem resolveGo_nil (cwd acc : String) :
    resolveGo cwd acc [] = (cwd ++ "/" ++ acc, strStartsWith cwd "/") := rfl

theorem resolveGo_empty_arg (cwd acc : String) (rest : List String) :
    resolveGo cwd acc ("" :: rest) = resolveGo cwd acc rest := by
  simp only [resolveGo]
  rw [if_pos trivial]

theorem resolveGo_abs_arg (cwd acc p : String) (rest : List String)
    (h1 : p ≠ "") (h2 : strStartsWith p "/" = true) :
    resolveGo cwd acc (p :: rest) = (p ++ "/" ++ acc, true) := by
  unfold resolveGo
  rw [if_neg h1, if_pos h2]

theorem resolveGo_rel_arg (cwd acc p : String) (rest : List String)
    (h1 : p ≠ "") (h2 : strStartsWith p "/" = false) :
    resolveGo cwd acc (p :: rest) = resolveGo cwd (p ++ "/" ++ acc) rest := by
  conv => lhs; rw [resolveGo]
  rw [if_neg h1, if_neg (by simp [h2])]

theorem resolveGo_abs (cwd : String) (hcwd : strStartsWith cwd "/" = true)
    (args : List String) : ∀ acc, (resolveGo cwd acc args).2 = true := by
  induction args with
  | nil =>
    intro acc
    rw [resolveGo_nil]
    exact hcwd
  | cons p rest ih =>
    intro acc
    by_cases h1 : p = ""
    · subst h1
      rw [resolveGo_empty_arg]
      exact ih acc
    · cases h2 : strStartsWith p "/"
      · rw [resolveGo_rel_arg cwd acc p rest h1 h2]
        exact ih _
      · rw [resolveGo_abs_arg cwd acc p rest h1 h2]

theorem append_slash_acc_last (x acc : String)
    (hacc : acc = "" ∨ acc.toList.getLast? = some '/') :
    (x ++ "/" ++ acc).toList.getLast? = some '/' := by
  rw [toList_append, toList_append]
  rcases hacc with h | h
  · subst h
    simp
  · have hne : acc.toList ≠ [] := by
      intro hnil
      rw [hnil] at h
      simp at h
    rw [List.getLast?_append_of_ne_nil _ hne]
    exact h

theorem resolveGo_last (cwd : String) (args : List String) :
    ∀ acc, (acc = "" ∨ acc.toList.getLast? = some '/') →
      ((resolveGo cwd acc args).1).toList.getLast? = some '/' := by
  induction args with
  | nil =>
    intro acc hacc
    rw [resolveGo_nil]
    exact append_slash_acc_last cwd acc hacc
  | cons p rest ih =>
    intro acc hacc
    by_cases h1 : p = ""
    · subst h1
      rw [resolveGo_empty_arg]
      exact ih acc hacc
    · cases h2 : strStartsWith p "/"
      · rw [resolveGo_rel_arg cwd acc p rest h1 h2]
        refine ih _ (Or.inr ?_)
        exact append_slash_acc_last p acc hacc
      · rw [resolveGo_abs_arg cwd acc p rest h1 h2]
        exact append_slash_acc_last p acc hacc

theorem mem_resolveGo_chars (cwd : String) (args : List String) :
    ∀ acc c, c ∈ ((resolveGo cwd acc args).1).toList →
      c = '/' ∨ c ∈ cwd.toList ∨ c ∈ acc.toList ∨ ∃ a ∈ args, c ∈ a.toList := by
  induction args with
  | nil =>
    intro acc c hc
    rw [resolveGo_nil, toList_append, toList_append] at hc
    rcases List.mem_append.mp hc with hc2 | hc2
    · rcases List.mem_append.mp hc2 with hc3 | hc3
      · exact Or.inr (Or.inl hc3)
      · simp at hc3
        exact Or.inl hc3
    · exact Or.inr (Or.inr (Or.inl hc2))
  | cons p rest ih =>
    intro acc c hc
    by_cases h1 : p = ""
    · subst h1
      rw [resolveGo_empty_arg] at hc
      rcases ih acc c hc with h | h | h | ⟨a, ha, hca⟩
      · exact Or.inl h
      · exact Or.inr (Or.inl h)
      · exact Or.inr (Or.inr (Or.inl h))
      · exact Or.inr (Or.inr (Or.inr ⟨a, List.mem_cons_of_mem _ ha, hca⟩))
    · cases h2 : strStartsWith p "/"
      · rw [resolveGo_rel_arg cwd acc p rest h1 h2] at hc
        rcases ih _ c hc with h | h | h | ⟨a, ha, hca⟩
        · exact Or.inl h
        · exact Or.inr (Or.inl h)
        · rw [toList_append, toList_append] at h
          rcases List.mem_append.mp h with h3 | h3
          · rcases List.mem_append.mp h3 with h4 | h4
            · exact Or.inr (Or.inr (Or.inr ⟨p, List.mem_cons_self _ _, h4⟩))
            · simp at h4
              exact Or.inl h4
          · exact Or.inr (Or.inr (Or.inl h3))
        · exact Or.inr (Or.inr (Or.inr ⟨a, List.mem_cons_of_mem _ ha, hca⟩))
      · rw [resolveGo_abs_arg cwd acc p rest h1 h2] at hc
        rw [toList_append, toList_append] at hc
        rcases List.mem_append.mp hc with h3 | h3
        · rcases List.mem_append.mp h3 with h4 | h4
          · exact Or.inr (Or.inr (Or.inr ⟨p, List.mem_cons_self _ _, h4⟩))
          · simp at h4
            exact Or.inl h4
        · exact Or.inr (Or.inr (Or.inl h3))

theorem mem_rawPieces_no_slash (s t : String) (h : t ∈ rawPieces s) :
    '/' ∉ t.toList := by
  unfold rawPieces at h
  obtain ⟨p, hp, hpt⟩ := List.mem_map.mp h
  subst hpt
  exact sep_not_mem_of_mem_splitOnChar '/' s.toList p hp

theorem mem_rawPieces_chars (s t : String) (h : t ∈ rawPieces s) :
    ∀ c ∈ t.toList, c ∈ s.toList := by
  unfold rawPieces at h
  obtain ⟨p, hp, hpt⟩ := List.mem_map.mp h
  subst hpt
  exact mem_of_mem_splitOnChar '/' s.toList p hp

theorem resolveSegs_res (cwd : String) (args : List String)
    (hcwd : strStartsWith cwd "/" = true) :
    ∀ t ∈ resolveSegs cwd args, segOk t ∧ t ≠ ".." := by
  intro t ht
  unfold resolveSegs at ht
  rw [resolveGo_abs cwd hcwd args.reverse ""] at ht
  unfold normSegs at ht
  rw [List.mem_reverse] at ht
  rcases mem_foldl_normStep false _ [] t ht with h | h | h
  · simp at h
  · exact absurd h.2 (by simp)
  · exact ⟨⟨h.2.1, h.2.2.1, mem_rawPieces_no_slash _ t h.1⟩, h.2.2.2⟩

theorem resolvePath_shape (cwd : String) (args : List String)
    (hcwd : strStartsWith cwd "/" = true) :
    resolvePath cwd args = "/" ++ joinSegs (resolveSegs cwd args) ∧
    pathSegs (resolvePath cwd args) = resolveSegs cwd args := by
  have habs : (resolveGo cwd "" args.reverse).2 = true := resolveGo_abs cwd hcwd args.reverse ""
  have h1 : resolvePath cwd args = "/" ++ joinSegs (resolveSegs cwd args) := by
    unfold resolvePath resolveSegs
    simp [habs]
  refine ⟨h1, ?_⟩
  rw [h1]
  exact pathSegs_slash_join _ fun t ht => (resolveSegs_res cwd args hcwd t ht).1

/-! ## Fixed points of resolution and normalization -/

theorem cleanSegs_append (a b : List String) :
    cleanSegs (a ++ b) = cleanSegs a ++ cleanSegs b := by
  simp [cleanSegs]

theorem joinSegs_pieces (l : List String) (hok : ∀ t ∈ l, segOk t) (hne : l ≠ []) :
    rawPieces ("/" ++ joinSegs l) = "" :: l := by
  unfold rawPieces
  rw [show ("/" ++ joinSegs l).toList = '/' :: (joinSegs l).toList from by
    rw [toList_append]; rfl]
  rw [splitOnChar_cons_sep, splitOnChar_joinSegs l hok hne]
  simp only [List.map_cons, List.map_map]
  have hid : ((fun d => String.mk d) ∘ String.toList) = id := funext fun t => rfl
  rw [hid, List.map_id]

theorem slash_join_slash_pieces (l : List String) (hok : ∀ t ∈ l, segOk t)
    (hne : l ≠ []) :
    rawPieces ("/" ++ joinSegs l ++ "/" ++ "") = "" :: (l ++ [""]) := by
  unfold rawPieces
  have hchars : ("/" ++ joinSegs l ++ "/" ++ "").toList =
      '/' :: ((joinSegs l).toList ++ '/' :: []) := by
    rw [toList_append, toList_append, toList_append]
    simp
  rw [hchars, splitOnChar_cons_sep, splitOnChar_append_sep,
    splitOnChar_joinSegs l hok hne]
  simp only [List.map_cons, List.map_append, List.map_map]
  have hid : ((fun d => String.mk d) ∘ String.toList) = id := funext fun t => rfl
  rw [hid, List.map_id]
  rfl

theorem normSegs_wrap (l : List String) (hnodd : ∀ t ∈ l, t ≠ "..")
    (hok : ∀ t ∈ l, segOk t) :
    normSegs false ("" :: (l ++ [""])) = l := by
  unfold normSegs
  rw [foldl_normStep_push _ [] ?hdd]
  case hdd =>
    intro t ht
    rcases List.mem_cons.mp ht with rfl | ht2
    · decide
    · rcases List.mem_append.mp ht2 with h3 | h3
      · exact hnodd t h3
      · simp only [List.mem_singleton] at h3
        subst h3
        decide
  rw [cleanSegs_cons_drop _ _ (Or.inl rfl), cleanSegs_append, cleanSegs_ok l hok]
  rw [show cleanSegs [""] = [] from rfl]
  simp

theorem resolvePath_fixed (cwd : String) (l : List String)
    (hres : ∀ t ∈ l, segOk t ∧ t ≠ "..") :
    resolvePath cwd ["/" ++ joinSegs l] = "/" ++ joinSegs l := by
  unfold resolvePath
  rw [show (["/" ++ joinSegs l] : List String).reverse = ["/" ++ joinSegs l] from by simp]
  rw [resolveGo_abs_arg cwd "" _ [] (slash_append_ne_empty _) (strStartsWith_slash_append _)]
  cases hl : l with
  | nil =>
    subst hl
    decide
  | cons x xs =>
    rw [← hl]
    have hne : l ≠ [] := by rw [hl]; simp
    have hok : ∀ t ∈ l, segOk t := fun t ht => (hres t ht).1
    simp only [Bool.not_true, if_true]
    rw [slash_join_slash_pieces l hok hne,
      normSegs_wrap l (fun t ht => (hres t ht).2) hok]

theorem joinSegs_last_ne_slash (l : List String) (hok : ∀ t ∈ l, segOk t) :
    l ≠ [] → ∀ c, (joinSegs l).toList.getLast? = some c → c ≠ '/' := by
  induction l with
  | nil => intro h; exact absurd rfl h
  | cons x xs ih =>
    intro _ c hc
    cases xs with
    | nil =>
      have hmem : c ∈ x.toList := by
        obtain ⟨hh, hceq⟩ := List.mem_getLast?_eq_getLast
          (l := x.toList) (x := c) (by rw [Option.mem_def]; exact hc)
        rw [hceq]
        exact List.getLast_mem hh
      intro hcs
      subst hcs
      exact (hok x (List.mem_cons_self _ _)).2.2 hmem
    | cons y ys =>
      rw [joinSegs_toList_cons x (y :: ys) (by simp)] at hc
      have hne2 : (joinSegs (y :: ys)).toList ≠ [] :=
        joinSegs_toList_ne_nil (y :: ys) (by simp)
          (fun t ht => (hok t (List.mem_cons_of_mem _ ht)).1)
      rw [List.getLast?_append_of_ne_nil _ (by simp)] at hc
      obtain ⟨z, zs, hz⟩ := List.exists_cons_of_ne_nil hne2
      rw [hz, List.getLast?_cons_cons, ← hz] at hc
      exact ih (fun t ht => hok t (List.mem_cons_of_mem _ ht)) (by simp) c hc

theorem normalize_fixed (l : List String) (hres : ∀ t ∈ l, segOk t ∧ t ≠ "..") :
    normalize ("/" ++ joinSegs l) = "/" ++ joinSegs l := by
  cases hl : l with
  | nil =>
    subst hl
    decide
  | cons x xs =>
    rw [← hl]
    have hne : l ≠ [] := by rw [hl]; simp
    have hok : ∀ t ∈ l, segOk t := fun t ht => (hres t ht).1
    have hjoin_ne : (joinSegs l).toList ≠ [] :=
      joinSegs_toList_ne_nil l hne fun t ht => (hok t ht).1
    have habs : strStartsWith ("/" ++ joinSegs l) "/" = true :=
      strStartsWith_slash_append _
    have htr : ¬ (("/" ++ joinSegs l).toList.getLast? = some '/') := by
      rw [toList_append]
      rw [show ("/" : String).toList = ['/'] from rfl]
      rw [List.getLast?_append_of_ne_nil _ hjoin_ne]
      intro hcon
      exact joinSegs_last_ne_slash l hok hne '/' hcon rfl
    simp only [normalize, habs, Bool.not_true]
    rw [if_neg (slash_append_ne_empty _)]
    rw [joinSegs_pieces l hok hne]
    rw [show normSegs false ("" :: l) = l from by
      unfold normSegs
      rw [foldl_normStep_push _ [] ?hdd2, cleanSegs_cons_drop _ _ (Or.inl rfl),
        cleanSegs_ok l hok]
      · simp
      case hdd2 =>
        intro t ht
        rcases List.mem_cons.mp ht with rfl | ht2
        · decide
        · exact (hres t ht2).2]
    rw [if_neg (by
      intro hcon
      exact absurd hjoin_ne (by rw [hcon]; simp))]
    rw [if_neg htr]
    rw [if_pos trivial]

/-! ## Decomposing a resolution into base and suffix segments -/

theorem str_toList_nil (x : String) (h : x.toList = []) : x = "" := by
  cases x with
  | mk d =>
    cases d with
    | nil => rfl
    | cons c cs => simp at h

theorem strContainsChar_true_iff (x : String) (c : Char) :
    strContainsChar x c = true ↔ c ∈ x.toList := by
  unfold strContainsChar
  exact List.elem_iff

theorem resolveGo_acc (cwd : String) (args : List String) :
    ∀ acc, (resolveGo cwd acc args).1 = (resolveGo cwd "" args).1 ++ acc ∧
      (resolveGo cwd acc args).2 = (resolveGo cwd "" args).2 := by
  induction args with
  | nil =>
    intro acc
    rw [resolveGo_nil, resolveGo_nil]
    constructor
    · show cwd ++ "/" ++ acc = cwd ++ "/" ++ "" ++ acc
      rw [String.append_empty]
    · rfl
  | cons p rest ih =>
    intro acc
    by_cases h1 : p = ""
    · subst h1
      rw [resolveGo_empty_arg, resolveGo_empty_arg]
      exact ih acc
    · cases h2 : strStartsWith p "/"
      · rw [resolveGo_rel_arg cwd acc p rest h1 h2, resolveGo_rel_arg cwd "" p rest h1 h2]
        constructor
        · rw [(ih (p ++ "/" ++ acc)).1, (ih (p ++ "/" ++ "")).1, String.append_empty]
          exact (String.append_assoc _ _ _).symm
        · rw [(ih (p ++ "/" ++ acc)).2, (ih (p ++ "/" ++ "")).2]
      · rw [resolveGo_abs_arg cwd acc p rest h1 h2, resolveGo_abs_arg cwd "" p rest h1 h2]
        constructor
        · show p ++ "/" ++ acc = p ++ "/" ++ "" ++ acc
          rw [String.append_empty]
        · rfl

theorem toList_dropLast_slash (a : String) (h : a.toList.getLast? = some '/') :
    a.toList = a.toList.dropLast ++ ['/'] := by
  have h2 : '/' ∈ a.toList.getLast? := by rw [Option.mem_def]; exact h
  exact (List.dropLast_append_getLast? '/' h2).symm

theorem rawPieces_concat_slash (s : String) :
    rawPieces (s ++ "/") = rawPieces s ++ [""] := by
  unfold rawPieces
  rw [toList_append]
  rw [show ("/" : String).toList = ['/'] from rfl]
  rw [splitOnChar_append_sep]
  rw [show splitOnChar '/' ([] : List Char) = [[]] from rfl]
  rw [List.map_append]
  rfl

theorem foldl_pieces_append (a b : String) (ha : a.toList.getLast? = some '/') :
    (rawPieces (a ++ b)).foldl (normStep false) [] =
      (rawPieces b).foldl (normStep false) ((rawPieces a).foldl (normStep false) []) := by
  have hal : a.toList = a.toList.dropLast ++ ['/'] := toList_dropLast_slash a ha
  have h1 : rawPieces a =
      ((splitOnChar '/' a.toList.dropLast).map fun l => String.mk l) ++ [""] := by
    unfold rawPieces
    conv => lhs; rw [hal]
    rw [splitOnChar_append_sep]
    rw [show splitOnChar '/' ([] : List Char) = [[]] from rfl]
    rw [List.map_append]
    rfl
  have h2 : rawPieces (a ++ b) =
      ((splitOnChar '/' a.toList.dropLast).map fun l => String.mk l) ++ rawPieces b := by
    unfold rawPieces
    rw [toList_append]
    conv => lhs; rw [hal]
    rw [List.append_assoc, List.singleton_append]
    rw [splitOnChar_append_sep]
    rw [List.map_append]
  have hstack : (rawPieces a).foldl (normStep false) [] =
      ((splitOnChar '/' a.toList.dropLast).map fun l => String.mk l).foldl
        (normStep false) [] := by
    rw [h1, List.foldl_append, List.foldl_cons, List.foldl_nil,
      normStep_skip false _ "" (Or.inl rfl)]
  rw [h2, List.foldl_append, hstack]

theorem resolveSegs_append (cwd base ns : String)
    (hcwd : strStartsWith cwd "/" = true)
    (hns1 : ns ≠ "") (hns2 : strStartsWith ns "/" = false)
    (hnodd : ∀ t ∈ rawPieces ns, t ≠ "..") :
    resolveSegs cwd [base, ns] = resolveSegs cwd [base] ++ cleanSegs (rawPieces ns) := by
  unfold resolveSegs
  rw [show ([base, ns] : List String).reverse = [ns, base] from by simp,
    show ([base] : List String).reverse = [base] from by simp]
  rw [resolveGo_rel_arg cwd "" ns [base] hns1 hns2]
  have hacc := resolveGo_acc cwd [base] (ns ++ "/" ++ "")
  rw [hacc.1, hacc.2]
  rw [resolveGo_abs cwd hcwd [base] ""]
  simp only [Bool.not_true]
  rw [String.append_empty]
  unfold normSegs
  rw [foldl_pieces_append _ (ns ++ "/") (resolveGo_last cwd [base] "" (Or.inl rfl))]
  rw [rawPieces_concat_slash ns]
  rw [List.foldl_append, List.foldl_cons, List.foldl_nil,
    normStep_skip false _ "" (Or.inl rfl)]
  rw [foldl_normStep_push (rawPieces ns) _ hnodd]
  rw [List.reverse_append, List.reverse_reverse]

theorem rawPieces_joinSegs (N : List String) (hok : ∀ t ∈ N, segOk t) (hne : N ≠ []) :
    rawPieces (joinSegs N) = N := by
  unfold rawPieces
  rw [splitOnChar_joinSegs N hok hne, List.map_map]
  have hid : ((fun d => String.mk d) ∘ String.toList) = id := funext fun t => rfl
  rw [hid, List.map_id]

theorem resolvePath_empty_arg2 (cwd x : String) :
    resolvePath cwd [x, ""] = resolvePath cwd [x] := by
  unfold resolvePath
  rw [show ([x, ""] : List String).reverse = ["", x] from by simp,
    show ([x] : List String).reverse = [x] from by simp,
    resolveGo_empty_arg]

/-! ## Lemmas about `relSegsAux` and segment joins -/

theorem relSegsAux_self_append (B N : List String) : relSegsAux B (B ++ N) = N := by
  induction B with
  | nil =>
    cases N with
    | nil => rfl
    | cons x xs => rfl
  | cons b bs ih =>
    rw [List.cons_append]
    calc relSegsAux (b :: bs) (b :: (bs ++ N)) = relSegsAux bs (bs ++ N) := by
          simp [relSegsAux]
    _ = N := ih

theorem relSegsAux_cases (B R : List String) :
    (∃ N, R = B ++ N ∧ relSegsAux B R = N) ∨ ∃ rest, relSegsAux B R = ".." :: rest := by
  induction B generalizing R with
  | nil =>
    left
    refine ⟨R, rfl, ?_⟩
    cases R with
    | nil => rfl
    | cons x xs => rfl
  | cons b bs ih =>
    cases R with
    | nil =>
      right
      refine ⟨List.replicate bs.length "..", ?_⟩
      rw [show relSegsAux (b :: bs) [] = List.replicate (bs.length + 1) ".." from rfl,
        List.replicate_succ]
    | cons r rs =>
      by_cases hbr : b = r
      · subst hbr
        have h : relSegsAux (b :: bs) (b :: rs) = relSegsAux bs rs := by
          simp [relSegsAux]
        rcases ih rs with ⟨N, hN1, hN2⟩ | ⟨rest, hrest⟩
        · left
          refine ⟨N, ?_, ?_⟩
          · rw [List.cons_append, ← hN1]
          · rw [h]; exact hN2
        · right
          exact ⟨rest, by rw [h]; exact hrest⟩
      · right
        refine ⟨List.replicate bs.length ".." ++ r :: rs, ?_⟩
        have h : relSegsAux (b :: bs) (r :: rs) =
            List.replicate (bs.length + 1) ".." ++ (r :: rs) := by
          simp [relSegsAux, hbr]
        rw [h, List.replicate_succ, List.cons_append]

theorem joinSegs_dd_head (rest : List String) :
    strStartsWith (joinSegs (".." :: rest)) ".." = true := by
  cases rest with
  | nil => decide
  | cons y ys =>
    unfold strStartsWith
    rw [joinSegs_toList_cons ".." (y :: ys) (by simp)]
    rfl

theorem joinSegs_startsWith_dd_false (N : List String) (hok : ∀ t ∈ N, segOk t)
    (hdd : ∀ t ∈ N, strStartsWith t ".." = false) :
    strStartsWith (joinSegs N) ".." = false := by
  cases N with
  | nil => rfl
  | cons x xs =>
    have hx := hok x (List.mem_cons_self _ _)
    have hxdd := hdd x (List.mem_cons_self _ _)
    cases xs with
    | nil => exact hxdd
    | cons y ys =>
      unfold strStartsWith
      rw [joinSegs_toList_cons x (y :: ys) (by simp)]
      cases hxl : x.toList with
      | nil => exact absurd (str_toList_nil x hxl) hx.1
      | cons c cs =>
        cases cs with
        | nil =>
          show (('.' == c) && (('.' == '/') && List.isPrefixOf ([] : List Char)
            (joinSegs (y :: ys)).toList)) = false
          rw [show (('.' : Char) == '/') = false from by decide, Bool.false_and,
            Bool.and_false]
        | cons c2 cs2 =>
          show (('.' == c) && (('.' == c2) && List.isPrefixOf ([] : List Char)
            (cs2 ++ '/' :: (joinSegs (y :: ys)).toList))) = false
          have h2 : (('.' == c) && (('.' == c2) &&
              List.isPrefixOf ([] : List Char) cs2)) = false := by
            have h3 := hxdd
            unfold strStartsWith at h3
            rw [hxl] at h3
            exact h3
          rw [List.isPrefixOf_nil_left]
          rw [List.isPrefixOf_nil_left] at h2
          exact h2

theorem joinSegs_startsWith_slash_false (N : List String) (hok : ∀ t ∈ N, segOk t) :
    strStartsWith (joinSegs N) "/" = false := by
  cases N with
  | nil => rfl
  | cons x xs =>
    have hx := hok x (List.mem_cons_self _ _)
    have hc_of : ∀ (c : Char) (cs : List Char), x.toList = c :: cs →
        ('/' == c) = false := by
      intro c cs hxl
      have hmem : c ∈ x.toList := by rw [hxl]; exact List.mem_cons_self _ _
      cases hb : ('/' == c) with
      | false => rfl
      | true =>
        have hce : '/' = c := eq_of_beq hb
        exact absurd (by rw [hce]; exact hmem) hx.2.2
    cases xs with
    | nil =>
      show List.isPrefixOf ('/' :: []) x.toList = false
      cases hxl : x.toList with
      | nil => exact absurd (str_toList_nil x hxl) hx.1
      | cons c cs =>
        show (('/' == c) && List.isPrefixOf ([] : List Char) cs) = false
        rw [hc_of c cs hxl, Bool.false_and]
    | cons y ys =>
      unfold strStartsWith
      rw [joinSegs_toList_cons x (y :: ys) (by simp)]
      cases hxl : x.toList with
      | nil => exact absurd (str_toList_nil x hxl) hx.1
      | cons c cs =>
        show (('/' == c) && List.isPrefixOf ([] : List Char)
          (cs ++ '/' :: (joinSegs (y :: ys)).toList)) = false
        rw [hc_of c cs hxl, Bool.false_and]

theorem resolvePath_chars (cwd : String) (args : List String)
    (hcwd : strStartsWith cwd "/" = true) (c : Char)
    (hc : c ∈ (resolvePath cwd args).toList) :
    c = '/' ∨ c ∈ cwd.toList ∨ ∃ a ∈ args, c ∈ a.toList := by
  rw [(resolvePath_shape cwd args hcwd).1, toList_append] at hc
  rcases List.mem_append.mp hc with h | h
  · left
    rw [show ("/" : String).toList = ['/'] from rfl] at h
    simpa using h
  · rcases mem_joinSegs_toList _ c h with h1 | ⟨t, ht, hct⟩
    · exact Or.inl h1
    · unfold resolveSegs at ht
      rw [resolveGo_abs cwd hcwd args.reverse ""] at ht
      unfold normSegs at ht
      rw [List.mem_reverse] at ht
      rcases mem_foldl_normStep false _ [] t ht with h2 | h2 | h2
      · simp at h2
      · exact absurd h2.2 (by simp)
      · have hcj : c ∈ ((resolveGo cwd "" args.reverse).1).toList :=
          mem_rawPieces_chars _ t h2.1 c hct
        rcases mem_resolveGo_chars cwd args.reverse "" c hcj with h3 | h3 | h3 | ⟨a, ha, hca⟩
        · exact Or.inl h3
        · exact Or.inr (Or.inl h3)
        · rw [show ("" : String).toList = [] from rfl] at h3
          simp at h3
        · exact Or.inr (Or.inr ⟨a, List.mem_reverse.mp ha, hca⟩)

/-! ## Inversion of a successful `validatePath` call -/

theorem validatePath_ok_elim (cwd s basePath p : String)
    (h : validatePath cwd s basePath = .ok p) :
    s ≠ "" ∧ p = resolvePath cwd [basePath, normalize s] ∧
    strStartsWith (relative cwd (resolvePath cwd [basePath])
      (resolvePath cwd [basePath, normalize s])) ".." = false ∧
    resolvePath cwd [resolvePath cwd [basePath],
      relative cwd (resolvePath cwd [basePath])
        (resolvePath cwd [basePath, normalize s])] =
      resolvePath cwd [basePath, normalize s] ∧
    strContainsChar (normalize s) nulChar = false := by
  by_cases hs : s = ""
  · subst hs
    simp [validatePath] at h
  · simp only [validatePath, if_neg hs] at h
    by_cases hg : strStartsWith (relative cwd (resolvePath cwd [basePath])
          (resolvePath cwd [basePath, normalize s])) ".." = true ∨
        resolvePath cwd [resolvePath cwd [basePath],
          relative cwd (resolvePath cwd [basePath])
            (resolvePath cwd [basePath, normalize s])] ≠
          resolvePath cwd [basePath, normalize s]
    · rw [if_pos hg] at h
      exact absurd h (by simp)
    · rw [if_neg hg] at h
      by_cases hn : strContainsChar (normalize s) nulChar = true
      · rw [if_pos hn] at h
        exact absurd h (by simp)
      · rw [if_neg hn] at h
        push_neg at hg
        refine ⟨hs, (Except.ok.inj h).symm, ?_, hg.2, ?_⟩
        · exact Bool.eq_false_iff.mpr hg.1
        · exact Bool.eq_false_iff.mpr hn

/-! ## Claim C1: containment of returned paths -/

/-- Claim C1: for every input string and base directory for which
`validatePath` returns a path (with an absolute working directory, as Node
guarantees), the returned path is contained in the base directory: it equals
`resolve(basePath, normalize(filePath))`, the relative path from the resolved
base to it does not begin with a parent-directory marker, re-resolving that
relative path against the resolved base yields the returned path exactly, and
its segment list extends the resolved base's segment list; this holds for all
inputs, including ones with redundant `.` segments or nested `../../..`
sequences, and in particular
`validatePath("../../../etc/passwd", "/home/user/project")` throws the
path-traversal `ValidationError` rather than returning. -/
theorem validatePath_containment (cwd s basePath p : String)
    (hcwd : strStartsWith cwd "/" = true)
    (h : validatePath cwd s basePath = .ok p) :
    (p = resolvePath cwd [basePath, normalize s] ∧
     strStartsWith (relative cwd (resolvePath cwd [basePath]) p) ".." = false ∧
     resolvePath cwd [resolvePath cwd [basePath],
       relative cwd (resolvePath cwd [basePath]) p] = p ∧
     ∃ rest, pathSegs p = pathSegs (resolvePath cwd [basePath]) ++ rest) ∧
    validatePath "/" "../../../etc/passwd" "/home/user/project" =
      .error ⟨"Path traversal detected: file path must be within the base directory",
        ["Path \"../../../etc/passwd\" resolves outside base directory \"/home/user/project\""],
        [("filePath", .str "../../../etc/passwd"),
         ("basePath", .str "/home/user/project"),
         ("resolvedPath", .str "/etc/passwd"),
         ("relativePath", .str "../../../etc/passwd")]⟩ := by
  obtain ⟨hs, hp, hdd, hre, hnul⟩ := validatePath_ok_elim cwd s basePath p h
  subst hp
  refine ⟨⟨rfl, hdd, hre, ?_⟩, by decide⟩
  have hshB := resolvePath_shape cwd [basePath] hcwd
  have hshP := resolvePath_shape cwd [basePath, normalize s] hcwd
  have hBres := resolveSegs_res cwd [basePath] hcwd
  have hRres := resolveSegs_res cwd [basePath, normalize s] hcwd
  rw [hshP.2, hshB.2]
  by_cases heq : resolvePath cwd [basePath] = resolvePath cwd [basePath, normalize s]
  · refine ⟨[], ?_⟩
    rw [List.append_nil]
    have h2 := congrArg pathSegs heq
    rw [hshP.2, hshB.2] at h2
    exact h2.symm
  · have hfix_b : resolvePath cwd [resolvePath cwd [basePath]] =
        resolvePath cwd [basePath] := by
      rw [hshB.1]
      exact resolvePath_fixed cwd _ hBres
    have hfix_p : resolvePath cwd [resolvePath cwd [basePath, normalize s]] =
        resolvePath cwd [basePath, normalize s] := by
      rw [hshP.1]
      exact resolvePath_fixed cwd _ hRres
    have hrel : relative cwd (resolvePath cwd [basePath])
        (resolvePath cwd [basePath, normalize s]) =
        joinSegs (relSegsAux (resolveSegs cwd [basePath])
          (resolveSegs cwd [basePath, normalize s])) := by
      simp only [relative]
      rw [if_neg heq, hfix_b, hfix_p, if_neg heq, hshB.2, hshP.2]
    rcases relSegsAux_cases (resolveSegs cwd [basePath])
        (resolveSegs cwd [basePath, normalize s]) with ⟨N, hN1, _⟩ | ⟨rest, hr⟩
    · exact ⟨N, hN1⟩
    · rw [hrel, hr, joinSegs_dd_head rest] at hdd
      exact absurd hdd (by decide)

/-- Witness for C1: a successful call at `cwd = "/"`, input `"a"` and base
`"/b"`, whose returned path is `"/b/a"`. -/
theorem validatePath_containment_witness :
    (("/b/a" : String) = resolvePath "/" ["/b", normalize "a"] ∧
     strStartsWith (relative "/" (resolvePath "/" ["/b"]) "/b/a") ".." = false ∧
     resolvePath "/" [resolvePath "/" ["/b"],
       relative "/" (resolvePath "/" ["/b"]) "/b/a"] = "/b/a" ∧
     ∃ rest, pathSegs "/b/a" = pathSegs (resolvePath "/" ["/b"]) ++ rest) ∧
    validatePath "/" "../../../etc/passwd" "/home/user/project" =
      .error ⟨"Path traversal detected: file path must be within the base directory",
        ["Path \"../../../etc/passwd\" resolves outside base directory \"/home/user/project\""],
        [("filePath", .str "../../../etc/passwd"),
         ("basePath", .str "/home/user/project"),
         ("resolvedPath", .str "/etc/passwd"),
         ("relativePath", .str "../../../etc/passwd")]⟩ :=
  validatePath_containment "/" "a" "/b" "/b/a" (by decide) (by decide)

/-! ## Claim C2: acceptance of traversal-free paths -/

/-- Counterexample to C2: `"..foo"` is non-empty, contains neither of the
traversal sequences `"../"` and `"..\"`, and resolves strictly under the
base directory (to `"/home/user/project/..foo"`), yet `validatePath`
rejects it with the path-traversal error, because the relative path
`"..foo"` from the resolved base starts with the two characters `".."`. -/
theorem validatePath_no_traversal_cex :
    hasSubstring "..foo" "../" = false ∧
    hasSubstring "..foo" "..\\" = false ∧
    ("..foo" : String) ≠ "" ∧
    resolvePath "/" ["/home/user/project", "..foo"] = "/home/user/project/..foo" ∧
    strStartsWith "/home/user/project/..foo" "/home/user/project/" = true ∧
    validatePath "/" "..foo" "/home/user/project" =
      .error ⟨"Path traversal detected: file path must be within the base directory",
        ["Path \"..foo\" resolves outside base directory \"/home/user/project\""],
        [("filePath", .str "..foo"), ("basePath", .str "/home/user/project"),
         ("resolvedPath", .str "/home/user/project/..foo"),
         ("relativePath", .str "..foo")]⟩ :=
  ⟨by decide, by decide, by decide, by decide, by decide, by decide⟩

/-- Claim C2 as amended: for every non-empty input whose normalization is
free of NUL bytes and whose resolution against the base splits as the
resolved base's segments followed by suffix segments none of which starts
with `".."` (in particular none is a traversal segment), `validatePath`
succeeds and returns `resolve(basePath, normalize(filePath))`, whose segment
list extends the resolved base's segment list by exactly that suffix; in
particular `validatePath("feature-flags/dark-mode.json", "/home/user/project")`
returns `"/home/user/project/feature-flags/dark-mode.json"`. -/
theorem validatePath_no_traversal_amended (cwd s basePath : String) (N : List String)
    (hcwd : strStartsWith cwd "/" = true)
    (hs : s ≠ "")
    (hnul : strContainsChar (normalize s) nulChar = false)
    (hsplit : resolveSegs cwd [basePath, normalize s] =
      resolveSegs cwd [basePath] ++ N)
    (hN : ∀ t ∈ N, segOk t ∧ strStartsWith t ".." = false) :
    validatePath cwd s basePath = .ok (resolvePath cwd [basePath, normalize s]) ∧
    pathSegs (resolvePath cwd [basePath, normalize s]) =
      pathSegs (resolvePath cwd [basePath]) ++ N ∧
    validatePath "/" "feature-flags/dark-mode.json" "/home/user/project" =
      .ok "/home/user/project/feature-flags/dark-mode.json" := by
  have hNok : ∀ t ∈ N, segOk t := fun t ht => (hN t ht).1
  have hNres : ∀ t ∈ N, segOk t ∧ t ≠ ".." := by
    intro t ht
    refine ⟨hNok t ht, ?_⟩
    intro hteq
    have := (hN t ht).2
    rw [hteq] at this
    exact absurd this (by decide)
  have hshB := resolvePath_shape cwd [basePath] hcwd
  have hshP := resolvePath_shape cwd [basePath, normalize s] hcwd
  have hBres := resolveSegs_res cwd [basePath] hcwd
  have hRres := resolveSegs_res cwd [basePath, normalize s] hcwd
  have hseg : pathSegs (resolvePath cwd [basePath, normalize s]) =
      pathSegs (resolvePath cwd [basePath]) ++ N := by
    rw [hshP.2, hshB.2, hsplit]
  refine ⟨?_, hseg, by decide⟩
  have hfix_b : resolvePath cwd [resolvePath cwd [basePath]] =
      resolvePath cwd [basePath] := by
    rw [hshB.1]
    exact resolvePath_fixed cwd _ hBres
  by_cases hNnil : N = []
  · subst hNnil
    rw [List.append_nil] at hsplit
    have hpeq : resolvePath cwd [basePath, normalize s] = resolvePath cwd [basePath] := by
      rw [hshP.1, hshB.1, hsplit]
    have hrel : relative cwd (resolvePath cwd [basePath])
        (resolvePath cwd [basePath, normalize s]) = "" := by
      rw [hpeq]
      simp [relative]
    have hre : resolvePath cwd [resolvePath cwd [basePath],
        relative cwd (resolvePath cwd [basePath])
          (resolvePath cwd [basePath, normalize s])] =
        resolvePath cwd [basePath, normalize s] := by
      rw [hrel, resolvePath_empty_arg2, hfix_b, hpeq]
    simp only [validatePath, if_neg hs]
    rw [if_neg (by
      intro hor
      rcases hor with h1 | h2
      · rw [hrel] at h1
        exact absurd h1 (by decide)
      · exact h2 hre)]
    rw [if_neg (by rw [hnul]; simp)]
  · have hNne_str : joinSegs N ≠ "" := by
      intro hj
      exact joinSegs_toList_ne_nil N hNnil (fun t ht => (hNok t ht).1)
        (by rw [hj]; rfl)
    have hne_str : ¬ (resolvePath cwd [basePath] =
        resolvePath cwd [basePath, normalize s]) := by
      intro heq
      have h2 := congrArg pathSegs heq
      rw [hshP.2, hshB.2, hsplit] at h2
      have h3 : resolveSegs cwd [basePath] ++ ([] : List String) =
          resolveSegs cwd [basePath] ++ N := by
        rw [List.append_nil]
        exact h2
      exact hNnil (List.append_cancel_left h3).symm
    have hfix_p : resolvePath cwd [resolvePath cwd [basePath, normalize s]] =
        resolvePath cwd [basePath, normalize s] := by
      rw [hshP.1]
      exact resolvePath_fixed cwd _ hRres
    have hrel : relative cwd (resolvePath cwd [basePath])
        (resolvePath cwd [basePath, normalize s]) = joinSegs N := by
      simp only [relative]
      rw [if_neg hne_str, hfix_b, hfix_p, if_neg hne_str, hshB.2, hshP.2, hsplit,
        relSegsAux_self_append]
    have hre : resolvePath cwd [resolvePath cwd [basePath],
        relative cwd (resolvePath cwd [basePath])
          (resolvePath cwd [basePath, normalize s])] =
        resolvePath cwd [basePath, normalize s] := by
      rw [hrel]
      have hsegs2 : resolveSegs cwd [resolvePath cwd [basePath], joinSegs N] =
          resolveSegs cwd [basePath] ++ N := by
        rw [resolveSegs_append cwd (resolvePath cwd [basePath]) (joinSegs N) hcwd
          hNne_str (joinSegs_startsWith_slash_false N hNok)
          (by
            rw [rawPieces_joinSegs N hNok hNnil]
            exact fun t ht => (hNres t ht).2)]
        rw [rawPieces_joinSegs N hNok hNnil, cleanSegs_ok N hNok]
        have hbase_segs : resolveSegs cwd [resolvePath cwd [basePath]] =
            resolveSegs cwd [basePath] := by
          have h4 := (resolvePath_shape cwd [resolvePath cwd [basePath]] hcwd).2
          rw [hfix_b] at h4
          rw [← h4, hshB.2]
        rw [hbase_segs]
      rw [(resolvePath_shape cwd [resolvePath cwd [basePath], joinSegs N] hcwd).1,
        hsegs2, hshP.1, hsplit]
    simp only [validatePath, if_neg hs]
    rw [if_neg (by
      intro hor
      rcases hor with h1 | h2
      · rw [hrel] at h1
        rw [joinSegs_startsWith_dd_false N hNok (fun t ht => (hN t ht).2)] at h1
        exact absurd h1 (by decide)
      · exact h2 hre)]
    rw [if_neg (by rw [hnul]; simp)]

/-- Witness for C2 at concrete scenario D. -/
theorem validatePath_no_traversal_witness :
    validatePath "/" "feature-flags/dark-mode.json" "/home/user/project" =
      .ok (resolvePath "/" ["/home/user/project",
        normalize "feature-flags/dark-mode.json"]) ∧
    pathSegs (resolvePath "/" ["/home/user/project",
        normalize "feature-flags/dark-mode.json"]) =
      pathSegs (resolvePath "/" ["/home/user/project"]) ++
        ["feature-flags", "dark-mode.json"] ∧
    validatePath "/" "feature-flags/dark-mode.json" "/home/user/project" =
      .ok "/home/user/project/feature-flags/dark-mode.json" :=
  validatePath_no_traversal_amended "/" "feature-flags/dark-mode.json"
    "/home/user/project" ["feature-flags", "dark-mode.json"]
    (by decide) (by decide) (by decide) (by decide) (by decide)

/-! ## Claim C3: idempotence of `validatePath` -/

/-- Counterexample to C3: with a base directory containing a NUL byte,
`validatePath("x", "/a\x00b")` succeeds and returns `"/a\x00b/x"`, but
re-validating that returned path fails with the null-byte error, because
the returned path inherits the base's NUL byte and survives its own
normalization.  `validatePath` is therefore not idempotent. -/
theorem validatePath_idempotent_cex :
    validatePath "/" "x" "/a\x00b" = .ok "/a\x00b/x" ∧
    validatePath "/" "/a\x00b/x" "/a\x00b" =
      .error ⟨"Invalid file path: null bytes not allowed", [],
        [("filePath", .str "/a\x00b/x"), ("basePath", .str "/a\x00b")]⟩ :=
  ⟨by decide, by decide⟩

/-- Claim C3 as amended: when the working directory is absolute and both it
and the base directory are free of NUL bytes, `validatePath` is idempotent:
whenever `validatePath(s, base)` succeeds with resolved path `p`,
`validatePath(p, base)` also succeeds and returns `p` itself. -/
theorem validatePath_idempotent_amended (cwd s basePath p : String)
    (hcwd : strStartsWith cwd "/" = true)
    (hcwdn : strContainsChar cwd nulChar = false)
    (hbn : strContainsChar basePath nulChar = false)
    (h : validatePath cwd s basePath = .ok p) :
    validatePath cwd p basePath = .ok p := by
  obtain ⟨hs, hp, hdd, hre, hnul⟩ := validatePath_ok_elim cwd s basePath p h
  have hshP := resolvePath_shape cwd [basePath, normalize s] hcwd
  have hRres := resolveSegs_res cwd [basePath, normalize s] hcwd
  have hp2 : p = "/" ++ joinSegs (resolveSegs cwd [basePath, normalize s]) := by
    rw [hp, hshP.1]
  have hpne : p ≠ "" := by rw [hp2]; exact slash_append_ne_empty _
  have hpabs : strStartsWith p "/" = true := by
    rw [hp2]
    exact strStartsWith_slash_append _
  have hnormp : normalize p = p := by
    rw [hp2]
    exact normalize_fixed _ hRres
  have habsorb : resolvePath cwd [basePath, p] = resolvePath cwd [p] := by
    unfold resolvePath
    rw [show ([basePath, p] : List String).reverse = [p, basePath] from by simp,
      show ([p] : List String).reverse = [p] from by simp,
      resolveGo_abs_arg cwd "" p [basePath] hpne hpabs,
      resolveGo_abs_arg cwd "" p [] hpne hpabs]
  have hres2 : resolvePath cwd [basePath, normalize p] = p := by
    rw [hnormp, habsorb, hp2]
    exact resolvePath_fixed cwd _ hRres
  have hArg : resolvePath cwd [basePath, normalize p] =
      resolvePath cwd [basePath, normalize s] := by
    rw [hres2, hp]
  have hpnul : strContainsChar p nulChar = false := by
    cases hcc : strContainsChar p nulChar with
    | false => rfl
    | true =>
      exfalso
      have hmem : nulChar ∈ p.toList := (strContainsChar_true_iff p nulChar).mp hcc
      rw [hp] at hmem
      rcases resolvePath_chars cwd [basePath, normalize s] hcwd nulChar hmem with
        h1 | h1 | ⟨a, ha, hca⟩
      · exact absurd h1 (by decide)
      · exact absurd ((strContainsChar_true_iff cwd nulChar).mpr h1)
          (by rw [hcwdn]; simp)
      · rcases List.mem_cons.mp ha with rfl | ha2
        · exact absurd ((strContainsChar_true_iff _ nulChar).mpr hca)
            (by rw [hbn]; simp)
        · rcases List.mem_cons.mp ha2 with rfl | ha3
          · exact absurd ((strContainsChar_true_iff _ nulChar).mpr hca)
              (by rw [hnul]; simp)
          · simp at ha3
  simp only [validatePath, if_neg hpne]
  rw [if_neg (by
    intro hor
    rw [hArg] at hor
    rcases hor with h1 | h2
    · rw [hdd] at h1
      exact absurd h1 (by decide)
    · exact h2 hre)]
  rw [if_neg (by rw [hnormp, hpnul]; simp)]
  rw [hres2]

/-- Witness for C3: re-validating the path returned for input `"a"` under
base `"/b"` succeeds and returns the same path. -/
theorem validatePath_idempotent_witness :
    validatePath "/" "/b/a" "/b" = .ok "/b/a" :=
  validatePath_idempotent_amended "/" "a" "/b" "/b/a" (by decide) (by decide)
    (by decide) (by decide)

end Hogsync
